import Mathlib

/-!
# Verification of the CHSP transaction mapper core

A shallow embedding, in Lean 4, of the identity-resolution engine of the
`chsp_transaction_mapper` repository: the address normalizer and client
registry (`src/core/client_map_loader.py`), the cascading transaction
matcher (`src/core/transaction_matcher.py`), the result and report models
(`src/models/match_result.py`, `src/models/reconciliation_report.py`), and
the post-review PII matcher
(`src/scripts/run_stripe_post_review_reconciliation.py`).

Python strings are modelled as `List Char` (with `String` wrappers at the
API), floats as `ℚ` (exact rational arithmetic in place of IEEE doubles),
Python dicts as insertion-ordered association lists, and fallible code via
`Except`.  The fuzzy string similarity functions (`fuzz.ratio`,
`fuzz.partial_ratio` of the `fuzzywuzzy` library, backed by
`difflib.SequenceMatcher`) are embedded by translating difflib's
`find_longest_match` / `get_matching_blocks` / `ratio` algorithms,
including the autojunk treatment of popular characters for second
sequences of length ≥ 200.
-/

namespace ChspMapper

/-! ## Character-level helpers -/

/-- Python `str.lower` restricted to ASCII (the registry data is ASCII). -/
def pyLower (c : Char) : Char :=
  if 'A' ≤ c ∧ c ≤ 'Z' then Char.ofNat (c.toNat + 32) else c

/-- Python's `\s` class (ASCII part): the characters stripped by `str.strip`
and collapsed by `re.sub(r'\s+', ' ', ...)`. -/
def isPySpace (c : Char) : Bool :=
  c = ' ' || c = '\t' || c = '\n' || c = '\r' || c = '\x0b' || c = '\x0c'

/-- Python's `\w` class (ASCII part), determining `\b` word boundaries. -/
def isWordChar (c : Char) : Bool :=
  c.isAlpha || c.isDigit || c = '_'

/-- The punctuation removed by `re.sub(r'[,.\-_/]', ' ', normalized)`. -/
def isAddrPunct (c : Char) : Bool :=
  c = ',' || c = '.' || c = '-' || c = '_' || c = '/'

def punctToSpace (c : Char) : Char :=
  if isAddrPunct c then ' ' else c

/-- Python `str.strip`: drop `\s` characters from both ends. -/
def pyStrip (s : List Char) : List Char :=
  (((s.dropWhile isPySpace).reverse).dropWhile isPySpace).reverse

/-- Worker of `collapseWs`: the flag records whether the previous
character belonged to the current whitespace run (in which case further
whitespace is absorbed). -/
def collapseWsAux : Bool → List Char → List Char
  | _, [] => []
  | inRun, c :: cs =>
    if isPySpace c then
      if inRun then collapseWsAux true cs
      else ' ' :: collapseWsAux true cs
    else c :: collapseWsAux false cs

/-- `re.sub(r'\s+', ' ', s)`: replace each maximal run of whitespace by a
single space. -/
def collapseWs (s : List Char) : List Char :=
  collapseWsAux false s

/-- One pass of `for abbrev, full in table: re.sub(abbrev, full, w)` on a
single `\b`-delimited word: the word is rewritten through the table in
order, each entry replacing the current word when it equals the key. -/
def applyTable (table : List (List Char × List Char)) (w : List Char) : List Char :=
  table.foldl (fun acc kv => if acc = kv.1 then kv.2 else acc) w

/-- The `street_types` substitution table of `_normalize_address`. -/
def streetTable : List (List Char × List Char) :=
  [("st".data, "street".data), ("rd".data, "road".data),
   ("ave".data, "avenue".data), ("avenue".data, "avenue".data),
   ("dr".data, "drive".data), ("pl".data, "place".data),
   ("cr".data, "crescent".data), ("crescent".data, "crescent".data),
   ("ct".data, "court".data), ("court".data, "court".data),
   ("ln".data, "lane".data), ("lane".data, "lane".data),
   ("wy".data, "way".data), ("way".data, "way".data)]

/-- The `unit_indicators` substitution table of `_normalize_address`. -/
def unitTable : List (List Char × List Char) :=
  [("unit".data, "u".data), ("apt".data, "u".data),
   ("apartment".data, "u".data), ("flat".data, "u".data)]

/-- Emit one completed word run (held reversed in the accumulator)
through the substitution table. -/
def flushRun (table : List (List Char × List Char)) (run : List Char) :
    List Char :=
  if run = [] then [] else applyTable table run.reverse

/-- Worker of `wordSub`: `run` holds the current (reversed) maximal run
of word characters. -/
def wordSubAux (table : List (List Char × List Char)) (run : List Char) :
    List Char → List Char
  | [] => flushRun table run
  | c :: cs =>
    if isWordChar c then wordSubAux table (c :: run) cs
    else flushRun table run ++ c :: wordSubAux table [] cs

/-- Apply a table of whole-word (`\b`-bounded) regex substitutions to a
string: each maximal run of word characters is rewritten through the
table, all other characters are kept as they are.  This is exactly what
`re.sub(r'\bKEY\b', VALUE, s)` does for the purely-word-character keys of
`street_types` and `unit_indicators`. -/
def wordSub (table : List (List Char × List Char)) (s : List Char) :
    List Char :=
  wordSubAux table [] s

/-- The maximal `\\w`-runs ("words") of a string, parsed exactly as
`wordSubAux` scans them: the accumulator holds the current (reversed)
partial run. -/
def runsOfAux (run : List Char) : List Char → List (List Char)
  | [] => if run = [] then [] else [run.reverse]
  | c :: cs =>
    if isWordChar c then runsOfAux (c :: run) cs
    else (if run = [] then [] else [run.reverse]) ++ runsOfAux [] cs

/-- The maximal word runs of a string. -/
def runsOf (s : List Char) : List (List Char) :=
  runsOfAux [] s

/-- A word left unchanged by both substitution tables. -/
def goodWord (w : List Char) : Prop :=
  applyTable streetTable w = w ∧ applyTable unitTable w = w

instance (w : List Char) : Decidable (goodWord w) :=
  inferInstanceAs (Decidable
    (applyTable streetTable w = w ∧ applyTable unitTable w = w))

/-- `ClientMapLoader._normalize_address` on the character list level.
Steps, in source order: lowercase, strip, punctuation to spaces, street
abbreviation expansion, unit-indicator collapse, whitespace collapse,
strip. -/
def normalizeAddressL (s : List Char) : List Char :=
  if s = [] then []
  else
    pyStrip (collapseWs (wordSub unitTable (wordSub streetTable
      ((pyStrip (s.map pyLower)).map punctToSpace))))

/-- `ClientMapLoader._normalize_address` (empty string models Python's
falsy `None`/`""` input). -/
def normalizeAddress (s : String) : String :=
  ⟨normalizeAddressL s.data⟩

/-! ## `difflib.SequenceMatcher` and the `fuzzywuzzy` scorers

The repository calls `fuzz.ratio` and `fuzz.partial_ratio` with
`python-Levenshtein` absent, so the scorers run on
`difflib.SequenceMatcher` with `junk=None`.  With `junk=None` the junk
set `bjunk` is empty, so in `find_longest_match` the two junk-extension
loops never fire and the two non-junk extension loops extend on plain
character equality; the autojunk rule still removes "popular" characters
of the second sequence from the `b2j` index when that sequence has
length ≥ 200. -/

/-- Number of occurrences of `c` in `b`. -/
def countChar (b : List Char) (c : Char) : Nat :=
  (b.filter (fun x => x = c)).length

/-- difflib autojunk: for `len(b) ≥ 200`, characters occurring more than
`len(b) // 100 + 1` times are dropped from the `b2j` index. -/
def isPopular (b : List Char) (c : Char) : Bool :=
  decide (200 ≤ b.length) && decide (b.length / 100 + 1 < countChar b c)

/-- Character of `s` at index `i` (indices are in range at every use
site; the default is never read). -/
def chAt (s : List Char) (i : Nat) : Char :=
  s.getD i ' '

/-- One row (one value of `i`) of the `j2len` dynamic program of
`difflib.SequenceMatcher.find_longest_match`: scan `j` over
`[blo, bhi)` ascending, restricted to positions where `b[j] == a[i]` and
`b[j]` is not autojunked; `newj2len[j] = j2len[j-1] + 1`, and the best
block is replaced whenever a strictly longer one is found. -/
def flmRow (a b : List Char) (blo bhi i : Nat)
    (old : Nat → Nat) (best : Nat × Nat × Nat) :
    (Nat → Nat) × (Nat × Nat × Nat) :=
  (List.range' blo (bhi - blo)).foldl
    (fun acc j =>
      if chAt b j == chAt a i && !isPopular b (chAt b j) then
        let k := (if j = 0 then 0 else old (j - 1)) + 1
        let nw := fun x => if x = j then k else acc.1 x
        if acc.2.2.2 < k then (nw, (i + 1 - k, j + 1 - k, k))
        else (nw, acc.2)
      else acc)
    ((fun _ => 0), best)

/-- The dynamic-programming phase of `find_longest_match`: iterate `i`
over `[alo, ahi)`, threading `j2len` and the best block
`(besti, bestj, bestsize)`, initially `(alo, blo, 0)`. -/
def flmDP (a b : List Char) (alo ahi blo bhi : Nat) : Nat × Nat × Nat :=
  ((List.range' alo (ahi - alo)).foldl
    (fun st i => flmRow a b blo bhi i st.1 st.2)
    ((fun _ => 0), (alo, blo, 0))).2

/-- The left extension loop of `find_longest_match`
(`while besti > alo and bestj > blo and not isbjunk(b[bestj-1]) and
a[besti-1] == b[bestj-1]`; `isbjunk` is constantly false for
`junk=None`).  `fuel` bounds the iteration count (`besti` decreases each
step, so `besti` fuel is always enough). -/
def flmExtL (a b : List Char) (alo blo : Nat) :
    Nat → Nat × Nat × Nat → Nat × Nat × Nat
  | 0, st => st
  | fuel + 1, (bi, bj, bs) =>
    if decide (alo < bi) && decide (blo < bj)
        && (chAt a (bi - 1) == chAt b (bj - 1)) then
      flmExtL a b alo blo fuel (bi - 1, bj - 1, bs + 1)
    else (bi, bj, bs)

/-- The right extension loop of `find_longest_match`
(`while besti+bestsize < ahi and bestj+bestsize < bhi and
not isbjunk(b[bestj+bestsize]) and
a[besti+bestsize] == b[bestj+bestsize]`). -/
def flmExtR (a b : List Char) (ahi bhi : Nat) :
    Nat → Nat × Nat × Nat → Nat × Nat × Nat
  | 0, st => st
  | fuel + 1, (bi, bj, bs) =>
    if decide (bi + bs < ahi) && decide (bj + bs < bhi)
        && (chAt a (bi + bs) == chAt b (bj + bs)) then
      flmExtR a b ahi bhi fuel (bi, bj, bs + 1)
    else (bi, bj, bs)

/-- `difflib.SequenceMatcher(None, a, b).find_longest_match(alo, ahi,
blo, bhi)` with `junk=None`: the dynamic program followed by the two
(non-junk) extension loops; the junk-extension loops never fire since
`bjunk` is empty. -/
def findLongestMatch (a b : List Char) (alo ahi blo bhi : Nat) :
    Nat × Nat × Nat :=
  let st := flmDP a b alo ahi blo bhi
  let st := flmExtL a b alo blo st.1 st
  flmExtR a b ahi bhi ahi st

/-- The recursive decomposition of `get_matching_blocks`: take the
longest match of the range, recurse on the sub-ranges to its left and to
its right.  Emitting the left blocks, the middle block, then the right
blocks reproduces difflib's sorted order (left blocks have strictly
smaller indices).  `fuel` bounds the recursion depth; the combined range
size shrinks at every call, so `la + lb + 1` is always enough. -/
def matchingBlocksAux (a b : List Char) :
    Nat → Nat → Nat → Nat → Nat → List (Nat × Nat × Nat)
  | 0, _, _, _, _ => []
  | fuel + 1, alo, ahi, blo, bhi =>
    let m := findLongestMatch a b alo ahi blo bhi
    if m.2.2 = 0 then []
    else
      matchingBlocksAux a b fuel alo m.1 blo m.2.1
        ++ m :: matchingBlocksAux a b fuel (m.1 + m.2.2) ahi (m.2.1 + m.2.2) bhi

/-- The adjacent-block merging loop of `get_matching_blocks` (difflib's
`i1, j1, k1 = 0, 0, 0` accumulator loop): a block adjacent to the
accumulated one (`i1 + k1 == i2 and j1 + k1 == j2`) is absorbed,
otherwise the accumulated block is emitted when nonempty. -/
def mergeAdjacent (cur : Nat × Nat × Nat) :
    List (Nat × Nat × Nat) → List (Nat × Nat × Nat)
  | [] => if cur.2.2 ≠ 0 then [cur] else []
  | b :: rest =>
    if cur.1 + cur.2.2 = b.1 ∧ cur.2.1 + cur.2.2 = b.2.1 then
      mergeAdjacent (cur.1, cur.2.1, cur.2.2 + b.2.2) rest
    else (if cur.2.2 ≠ 0 then [cur] else []) ++ mergeAdjacent b rest

/-- `SequenceMatcher.get_matching_blocks`: the sorted recursive
decomposition, adjacent blocks merged, a `(la, lb, 0)` terminator
appended. -/
def getMatchingBlocks (a b : List Char) : List (Nat × Nat × Nat) :=
  mergeAdjacent (0, 0, 0)
      (matchingBlocksAux a b (a.length + b.length + 1) 0 a.length 0 b.length)
    ++ [(a.length, b.length, 0)]

/-- `SequenceMatcher.ratio`: `2 * M / T` where `M` is the total size of
the matching blocks and `T` the sum of the lengths (`1.0` when both
sequences are empty, per `_calculate_ratio`). -/
def smRatio (a b : List Char) : ℚ :=
  let m : Nat := ((getMatchingBlocks a b).map (fun t => t.2.2)).sum
  if a.length + b.length = 0 then 1
  else (2 * m : ℚ) / ((a.length : ℚ) + (b.length : ℚ))

/-- Python's `round` to the nearest integer, halves to even — the
`utils.intr` of fuzzywuzzy is `int(round(x))`. -/
def pyRound (q : ℚ) : ℤ :=
  if q - q.floor < 1 / 2 then q.floor
  else if 1 / 2 < q - q.floor then q.floor + 1
  else if q.floor % 2 = 0 then q.floor else q.floor + 1

/-- `fuzz.ratio(s1, s2)`: the `check_for_equal` decorator short-circuits
equal inputs to 100, otherwise `intr(100 * SequenceMatcher(None, s1,
s2).ratio())`. -/
def fuzzRatio (s1 s2 : String) : Nat :=
  if s1 = s2 then 100
  else (pyRound (100 * smRatio s1.data s2.data)).toNat

/-- The block loop of `fuzz.partial_ratio`: for each matching block,
align a window of the longer string of the shorter string's length at
`long_start = max(block[1] - block[0], 0)` (natural subtraction is
exactly that), and take `SequenceMatcher.ratio` of the shorter string
against the window; a ratio above `0.995` short-circuits the whole call
to 100 (modelled by `Except.error`). -/
def partialScores (shorter longer : List Char) :
    List (Nat × Nat × Nat) → Except Unit (List ℚ)
  | [] => .ok []
  | blk :: rest =>
    let longStart := blk.2.1 - blk.1
    let window := (longer.drop longStart).take shorter.length
    let r := smRatio shorter window
    if 199 / 200 < r then .error ()
    else (partialScores shorter longer rest).map (fun l => r :: l)

/-- Maximum of a list of (nonnegative) scores, `max(scores)` — the list
is never empty because `get_matching_blocks` always ends with the
terminator block. -/
def qListMax (l : List ℚ) : ℚ :=
  l.foldl max 0

/-- `fuzz.partial_ratio(s1, s2)`: `check_for_equal`, then the
best-matching-substring loop over the matching blocks of (shorter,
longer), returning `intr(100 * max(scores))`. -/
def fuzzPartialRatio (s1 s2 : String) : Nat :=
  if s1 = s2 then 100
  else
    let p := if s1.length ≤ s2.length then (s1.data, s2.data)
             else (s2.data, s1.data)
    match partialScores p.1 p.2 (getMatchingBlocks p.1 p.2) with
    | .error _ => 100
    | .ok scores => (pyRound (100 * qListMax scores)).toNat

/-! ## Data model

`ClientRecord` mirrors the registry record shapes read by
`ClientMapLoader` and `TransactionMatcher`: optional string fields are
modelled as `String` with `""` for Python's falsy missing value where
the code only ever tests truthiness and formats, and as `Option String`
where the code distinguishes `None` (via `dict.get`).  `Transaction`
carries the fields the matching core reads (`date`, `amount`,
`reference`, `raw_data` never influence matching and are omitted);
`platform_metadata` is modelled by its two keys used by the matcher. -/

/-- Python truthiness of an optional string (`None` and `""` are falsy). -/
def truthy : Option String → Bool
  | none => false
  | some s => !(s == "")

/-- `str.lower` on whole strings. -/
def pyLowerS (s : String) : String :=
  ⟨s.data.map pyLower⟩

/-- `str.strip` on whole strings. -/
def pyStripS (s : String) : String :=
  ⟨pyStrip s.data⟩

/-- Python's `needle in hay` substring test. -/
def isSubstrL (needle : List Char) : List Char → Bool
  | [] => needle.isEmpty
  | c :: cs => needle.isPrefixOf (c :: cs) || isSubstrL needle cs

def isSubstr (needle hay : String) : Bool :=
  isSubstrL needle.data hay.data

/-- Insertion-ordered Python-dict assignment `d[k] = v`: overwrite in
place if the key exists, else append. -/
def dictInsert {α : Type} : List (String × α) → String → α → List (String × α)
  | [], k, v => [(k, v)]
  | p :: rest, k, v =>
    if p.1 = k then (p.1, v) :: rest else p :: dictInsert rest k v

/-- Python-dict lookup `d.get(k)` (keys are unique in dicts built by
`dictInsert`, so the first hit is the binding). -/
def dictGet? {α : Type} : List (String × α) → String → Option α
  | [], _ => none
  | p :: rest, k => if p.1 = k then some p.2 else dictGet? rest k

structure PersonalInfo where
  given_name : String := ""
  family_name : String := ""
  emails : List String := []
  contact_numbers : List String := []
deriving Repr, DecidableEq

structure Location where
  address_1 : String := ""
  address_2 : String := ""
  suburb : String := ""
  postcode : String := ""
deriving Repr, DecidableEq

/-- One entry of a record's `platform_identifiers` list, flattened to
the `identifiers` sub-keys the code reads. -/
structure PlatformIdEntry where
  platform : String := ""
  client_id : Option String := none
  display_name : Option String := none
  acn : Option String := none
deriving Repr, DecidableEq

structure ClientRecord where
  personal_info : PersonalInfo := {}
  location : Option Location := none
  platform_identifiers : List PlatformIdEntry := []
deriving Repr, DecidableEq

/-- The loaded `_client_cache`: an insertion-ordered mapping
`caura_id → record` (iteration order of a Python dict is insertion
order). -/
def Registry : Type := List (String × ClientRecord)

instance : Membership (String × ClientRecord) Registry :=
  inferInstanceAs (Membership (String × ClientRecord)
    (List (String × ClientRecord)))

/-- `f"{given_name} {family_name}".strip()`. -/
def fullName (c : ClientRecord) : String :=
  ⟨pyStrip (c.personal_info.given_name.data ++ ' ' :: c.personal_info.family_name.data)⟩

/-- The `_email_index` built by `_build_indices`: lowercased email →
caura_id, later clients overwriting earlier ones. -/
def buildEmailIndex (reg : Registry) : List (String × String) :=
  reg.foldl
    (fun idx p =>
      p.2.personal_info.emails.foldl
        (fun idx e => if e ≠ "" then dictInsert idx (pyLowerS e) p.1 else idx)
        idx)
    []

/-- The `_platform_index` built by `_build_indices`: platform →
(identifier → caura_id), indexing `client_id` as-is and `display_name`
lowercased. -/
def buildPlatformIndex (reg : Registry) :
    List (String × List (String × String)) :=
  reg.foldl
    (fun idx p =>
      p.2.platform_identifiers.foldl
        (fun idx pe =>
          let idx := if (dictGet? idx pe.platform).isSome then idx
                     else dictInsert idx pe.platform []
          let sub := (dictGet? idx pe.platform).getD []
          let sub := if truthy pe.client_id then
                       dictInsert sub (pe.client_id.getD "") p.1
                     else sub
          let sub := if truthy pe.display_name then
                       dictInsert sub (pyLowerS (pe.display_name.getD "")) p.1
                     else sub
          dictInsert idx pe.platform sub)
        idx)
    []

/-- `ClientMapLoader.find_client_by_email`: case-insensitive exact
lookup in the email index. -/
def find_client_by_email (reg : Registry) (email : String) : Option String :=
  dictGet? (buildEmailIndex reg) (pyLowerS email)

/-- `ClientMapLoader.find_client_by_platform_id`:
`platform_data.get(identifier) or platform_data.get(identifier.lower())`
(Python `or` falls through on a falsy first operand). -/
def find_client_by_platform_id (reg : Registry) (platform identifier : String) :
    Option String :=
  let pdata := (dictGet? (buildPlatformIndex reg) platform).getD []
  match dictGet? pdata identifier with
  | some v => if v = "" then dictGet? pdata (pyLowerS identifier) else some v
  | none => dictGet? pdata (pyLowerS identifier)

structure Transaction where
  transaction_id : String
  description : String := ""
  email : Option String := none
  client_identifier : Option String := none
  platform : String := ""
  meta_client_name : Option String := none
  meta_client_suburb : Option String := none
deriving Repr, DecidableEq

/-- The value type of a `match_details` payload (Python `Dict[str, Any]`
values that actually occur: strings, scores, booleans, a location dict,
a nested dict). -/
inductive DetailVal where
  | s (v : String)
  | q (v : ℚ)
  | b (v : Bool)
  | loc (v : Location)
  | m (v : List (String × DetailVal))
  | nullv
deriving Repr

/-- `models.match_result.MatchResult`. -/
structure MatchResult where
  transaction_id : String
  client_caura_id : Option String := none
  confidence_score : ℚ
  match_method : String
  match_details : List (String × DetailVal) := []
  is_matched : Bool
  requires_review : Bool := false
deriving Repr

/-- `MatchResult.confidence_level`: a pure function of the score with
hardcoded thresholds `0.85` / `0.60`. -/
def confidenceLevel (r : MatchResult) : String :=
  if 85 / 100 ≤ r.confidence_score then "high"
  else if 60 / 100 ≤ r.confidence_score then "medium"
  else "low"

/-- The configuration surface read by `TransactionMatcher.__init__` and
the strategy methods; field defaults are the source's `config.get`
fallbacks. -/
structure Thresholds where
  high : ℚ := 85 / 100
  medium : ℚ := 60 / 100
  low : ℚ := 40 / 100
deriving Repr, DecidableEq

structure MatchingConfig where
  thresholds : Thresholds := {}
  name_threshold : ℚ := 85 / 100
  address_min_score : ℚ := 80 / 100
deriving Repr, DecidableEq

/-! ## `ClientMapLoader.find_client_by_street_address` -/

/-- The running best of the linear scan: `best_match` / `best_score` /
`best_details` update together, `best_score` starting at `0.0`. -/
def bestScoreOf {α : Type} : Option (String × ℚ × α) → ℚ
  | none => 0
  | some t => t.2.1

/-- The `client_address_parts` list of one candidate: unit, street,
suburb, postcode — each included when truthy, stripped. -/
def clientAddrParts (loc : Location) : List String :=
  (if loc.address_1 ≠ "" then [pyStripS loc.address_1] else [])
    ++ (if loc.address_2 ≠ "" then [pyStripS loc.address_2] else [])
    ++ (if loc.suburb ≠ "" then [pyStripS loc.suburb] else [])
    ++ (if loc.postcode ≠ "" then [pyStripS loc.postcode] else [])

/-- The `(match_strategies, scores)` pairs of one candidate, in source
order: full-address partial ratio, street-only partial ratio (when a
street line exists), `0.85` when the normalized suburb is contained in
the normalized input, `0.90` when the raw postcode occurs in the raw
input. -/
def clientAddrPairs (address_description normalized_input : String)
    (loc : Location) : List (String × ℚ) :=
  [("full_address",
    (fuzzPartialRatio normalized_input
      (normalizeAddress (String.intercalate " " (clientAddrParts loc))) : ℚ)
      / 100)]
  ++ (if loc.address_2 ≠ "" then
        [("street_only",
          (fuzzPartialRatio normalized_input
            (normalizeAddress loc.address_2) : ℚ) / 100)]
      else [])
  ++ (if loc.suburb ≠ ""
         ∧ isSubstr (normalizeAddress loc.suburb) normalized_input then
        [("suburb_match", 85 / 100)]
      else [])
  ++ (if loc.postcode ≠ ""
         ∧ isSubstr (pyStripS loc.postcode) address_description then
        [("postcode_match", 90 / 100)]
      else [])

/-- One iteration of the `find_client_by_street_address` scan: per
client with a location, build the candidate address from the present
components, compute the applicable strategy scores, take their maximum,
and keep the candidate when it strictly improves the running best and
clears `min_score`. -/
def addrStep (address_description normalized_input : String) (min_score : ℚ)
    (best : Option (String × ℚ × List (String × DetailVal)))
    (p : String × ClientRecord) :
    Option (String × ℚ × List (String × DetailVal)) :=
  match p.2.location with
  | none => best
  | some loc =>
    if clientAddrParts loc = [] then best
    else
      let full_client_address :=
        String.intercalate " " (clientAddrParts loc)
      let pairs := clientAddrPairs address_description normalized_input loc
      let client_best_score := qListMax (pairs.map (fun q => q.2))
      let best_strategy :=
        ((pairs.find? (fun q => q.2 = client_best_score)).map
          (fun q => q.1)).getD ""
      if bestScoreOf best < client_best_score
          ∧ min_score ≤ client_best_score then
        some (p.1, client_best_score,
          [("matched_address", .s full_client_address),
           ("match_strategy", .s best_strategy),
           ("client_location", .loc loc),
           ("input_address", .s address_description),
           ("normalized_input", .s normalized_input),
           ("all_scores",
            .m (pairs.map (fun q => (q.1, DetailVal.q q.2))))])
      else best

/-- `ClientMapLoader.find_client_by_street_address(address_description,
min_score)`: the linear scan of `addrStep` over the registry.  Returns
`None` for falsy input, input shorter than 5 characters after
stripping, or when no candidate was kept (Python's final
`if best_match:` also rejects an empty-string caura_id as falsy). -/
def find_client_by_street_address (reg : Registry)
    (address_description : String) (min_score : ℚ) :
    Option (String × ℚ × List (String × DetailVal)) :=
  if address_description = "" ∨ (pyStripS address_description).length < 5 then
    none
  else
    let normalized_input := normalizeAddress address_description
    match reg.foldl (addrStep address_description normalized_input min_score)
        none with
    | some (cid, sc, det) => if cid = "" then none else some (cid, sc, det)
    | none => none

/-! ## `TransactionMatcher` -/

/-- `TransactionMatcher._fuzzy_name_match`: scan the registry for the
best client whose lowercased full name is contained in the lowercased
description (score `1.0`) or else scores best by partial ratio, gated by
`name_threshold / 100.0` — the source divides the already-fractional
threshold (default `0.85`) by 100 at both the per-client test and the
final test. -/
def fuzzy_name_match (cfg : MatchingConfig) (reg : Registry)
    (tx : Transaction) : Option MatchResult :=
  let description := pyLowerS tx.description
  let best := reg.foldl
    (fun best p =>
      let full_name := pyLowerS (fullName p.2)
      if full_name = "" then best
      else
        let score : ℚ :=
          if isSubstr full_name description then 1
          else (fuzzPartialRatio full_name description : ℚ) / 100
        if bestScoreOf best < score ∧ cfg.name_threshold / 100 ≤ score then
          some (p.1, score, full_name)
        else best)
    none
  match best with
  | some (cid, sc, nm) =>
    if nm ≠ "" ∧ cfg.name_threshold / 100 ≤ sc then
      some { transaction_id := tx.transaction_id, client_caura_id := some cid,
             confidence_score := sc, match_method := "fuzzy_name",
             match_details := [("matched_name", .s nm), ("fuzzy_score", .q sc)],
             is_matched := true,
             requires_review := decide (sc < cfg.thresholds.high) }
    else none
  | none => none

/-- `TransactionMatcher._paper_receipt_match`: whole-string name
similarity against the metadata-supplied name, with a `+0.15` suburb
verification boost (capped at `1.0`) when the name score reaches `0.60`
and the suburbs agree at `≥ 0.80`; gated by `name_threshold / 100.0`
(same threshold division as the fuzzy name strategy). -/
def paper_receipt_match (cfg : MatchingConfig) (reg : Registry)
    (tx : Transaction) : Option MatchResult :=
  if !truthy tx.meta_client_name then none
  else
    let client_name := tx.meta_client_name.getD ""
    let client_suburb := tx.meta_client_suburb
    let name_threshold := cfg.name_threshold / 100
    let best := reg.foldl
      (fun best p =>
        let full_name := fullName p.2
        if full_name = "" then best
        else
          let name_score : ℚ :=
            (fuzzRatio (pyLowerS client_name) (pyLowerS full_name) : ℚ) / 100
          let suburb_boost : ℚ :=
            if truthy client_suburb ∧ 60 / 100 ≤ name_score then
              let cls := (p.2.location.map Location.suburb).getD ""
              if cls ≠ ""
                  ∧ 80 / 100 ≤ (fuzzRatio (pyLowerS (client_suburb.getD ""))
                                  (pyLowerS cls) : ℚ) / 100 then
                15 / 100
              else 0
            else 0
          let total_score := min 1 (name_score + suburb_boost)
          if bestScoreOf best < total_score ∧ name_threshold ≤ total_score then
            some (p.1, total_score,
              (full_name,
               [("matched_name", DetailVal.s full_name),
                ("input_name", DetailVal.s client_name),
                ("name_score", DetailVal.q name_score),
                ("suburb_boost", DetailVal.q suburb_boost),
                ("suburb_verified", DetailVal.b (decide (0 < suburb_boost))),
                ("input_suburb",
                 match client_suburb with
                 | some s => DetailVal.s s
                 | none => DetailVal.nullv)]))
          else best)
      none
    match best with
    | some (cid, sc, nm, det) =>
      if nm ≠ "" ∧ name_threshold ≤ sc then
        some { transaction_id := tx.transaction_id, client_caura_id := some cid,
               confidence_score := sc, match_method := "paper_receipt_name_fuzzy",
               match_details := det, is_matched := true,
               requires_review := decide (sc < cfg.thresholds.high) }
      else none
    | none => none

/-- `TransactionMatcher._address_match`: delegate to
`find_client_by_street_address` on the raw description with the
configured minimum score. -/
def address_match (cfg : MatchingConfig) (reg : Registry)
    (tx : Transaction) : Option MatchResult :=
  match find_client_by_street_address reg tx.description cfg.address_min_score with
  | some (cid, sc, det) =>
    some { transaction_id := tx.transaction_id, client_caura_id := some cid,
           confidence_score := sc, match_method := "address_match",
           match_details := det, is_matched := true,
           requires_review := decide (sc < cfg.thresholds.high) }
  | none => none

/-- `TransactionMatcher.match_transaction`: the strategy cascade —
exact platform identifier, exact email, paper-receipt enhanced matching
(for platform `"paper_receipt"`), fuzzy name, address, then the
`no_match` result. -/
def match_transaction (cfg : MatchingConfig) (reg : Registry)
    (tx : Transaction) : MatchResult :=
  let r1 : Option MatchResult :=
    if truthy tx.client_identifier then
      match find_client_by_platform_id reg tx.platform
              (tx.client_identifier.getD "") with
      | some cid =>
        if cid = "" then none
        else some { transaction_id := tx.transaction_id,
                    client_caura_id := some cid, confidence_score := 1,
                    match_method := "exact_client_id",
                    match_details :=
                      [("matched_identifier",
                        .s (tx.client_identifier.getD ""))],
                    is_matched := true, requires_review := false }
      | none => none
    else none
  let r2 : Option MatchResult :=
    if truthy tx.email then
      match find_client_by_email reg (tx.email.getD "") with
      | some cid =>
        if cid = "" then none
        else some { transaction_id := tx.transaction_id,
                    client_caura_id := some cid, confidence_score := 1,
                    match_method := "exact_email",
                    match_details := [("matched_email", .s (tx.email.getD ""))],
                    is_matched := true, requires_review := false }
      | none => none
    else none
  let r3 : Option MatchResult :=
    if tx.platform = "paper_receipt" then paper_receipt_match cfg reg tx
    else none
  let r4 : Option MatchResult := fuzzy_name_match cfg reg tx
  let r5 : Option MatchResult := address_match cfg reg tx
  (((r1.orElse fun _ => r2).orElse fun _ => r3).orElse fun _ =>
    (r4.orElse fun _ => r5)).getD
    { transaction_id := tx.transaction_id, client_caura_id := none,
      confidence_score := 0, match_method := "no_match", match_details := [],
      is_matched := false, requires_review := true }

/-- `TransactionMatcher.bulk_match_transactions`: the list comprehension
`[self.match_transaction(tx) for tx in transactions]`. -/
def bulk_match_transactions (cfg : MatchingConfig) (reg : Registry)
    (txs : List Transaction) : List MatchResult :=
  txs.map (match_transaction cfg reg)

/-! ## `ReconciliationReport` -/

/-- `d[k] = d.get(k, 0) + 1` on an insertion-ordered counter dict.  For
the confidence-distribution dict the key is always one of the three
pre-seeded keys, so this also models Python's `d[k] += 1` there. -/
def bumpCount : List (String × Nat) → String → List (String × Nat)
  | [], k => [(k, 1)]
  | p :: rest, k =>
    if p.1 = k then (p.1, p.2 + 1) :: rest else p :: bumpCount rest k

/-- `models.reconciliation_report.ReconciliationReport` (the wall-clock
`run_date` field is omitted: it never feeds back into any computation). -/
structure ReconciliationReport where
  run_id : String
  platform : String
  source_identifier : String
  total_transactions : Nat
  matched_transactions : Nat
  unmatched_transactions : Nat
  requires_review : Nat
  confidence_distribution : List (String × Nat)
  match_method_breakdown : List (String × Nat)
  processing_time : ℚ
  match_results : List MatchResult
deriving Repr

/-- `ReconciliationReport.from_match_results`. -/
def fromMatchResults (run_id platform source_identifier : String)
    (match_results : List MatchResult) (processing_time : ℚ) :
    ReconciliationReport :=
  let total := match_results.length
  let matched := (match_results.filter (fun r => r.is_matched)).length
  let unmatched := total - matched
  let review_needed := (match_results.filter (fun r => r.requires_review)).length
  let confidence_dist := match_results.foldl
    (fun d r => bumpCount d (confidenceLevel r))
    [("high", 0), ("medium", 0), ("low", 0)]
  let method_breakdown := match_results.foldl
    (fun d r => bumpCount d r.match_method) []
  { run_id := run_id, platform := platform,
    source_identifier := source_identifier, total_transactions := total,
    matched_transactions := matched, unmatched_transactions := unmatched,
    requires_review := review_needed,
    confidence_distribution := confidence_dist,
    match_method_breakdown := method_breakdown,
    processing_time := processing_time, match_results := match_results }

/-! ## `ClientMapLoader.load_client_map` as a state machine

For the load-time claims the parsed JSON snapshot is modelled
explicitly, and the loader's attribute mutations are modelled as a state
record; a raised exception carries the state at the moment of the raise,
so that partial publication of `_client_cache` / indices is
observable. -/

inductive JVal where
  | jnull
  | jbool (b : Bool)
  | jnum (n : Int)
  | jstr (s : String)
  | jarr (xs : List JVal)
  | jobj (fs : List (String × JVal))
deriving Repr

mutual

def jvalBeq : JVal → JVal → Bool
  | .jnull, .jnull => true
  | .jbool a, .jbool b => a == b
  | .jnum a, .jnum b => a == b
  | .jstr a, .jstr b => a == b
  | .jarr a, .jarr b => jvalListBeq a b
  | .jobj a, .jobj b => jvalObjBeq a b
  | _, _ => false

def jvalListBeq : List JVal → List JVal → Bool
  | [], [] => true
  | x :: xs, y :: ys => jvalBeq x y && jvalListBeq xs ys
  | _, _ => false

def jvalObjBeq : List (String × JVal) → List (String × JVal) → Bool
  | [], [] => true
  | x :: xs, y :: ys => x.1 == y.1 && jvalBeq x.2 y.2 && jvalObjBeq xs ys
  | _, _ => false

end

instance : BEq JVal := ⟨jvalBeq⟩

/-- The Python exception kinds the loader can raise.  The bare
`ValueError("Invalid client registry format")` plays the role of the
spec's `RegistryFormatError`. -/
inductive PyErr where
  | valueError (msg : String)
  | keyError
  | typeError
  | attributeError
deriving Repr, DecidableEq

/-- The mutable attributes of `ClientMapLoader`:
`None` models the pristine `__init__` value of each. -/
structure LoaderState where
  client_cache : Option (List (JVal × JVal)) := none
  email_index : Option (List (String × JVal)) := none
  name_index : Option (List (String × List JVal)) := none
  platform_index : Option (List (JVal × List (JVal × JVal))) := none

def jTruthy : JVal → Bool
  | .jnull => false
  | .jbool b => b
  | .jnum n => !(n == 0)
  | .jstr s => !(s == "")
  | .jarr xs => !xs.isEmpty
  | .jobj fs => !fs.isEmpty

/-- Python `for x in v`: lists yield their elements, strings their
characters, dicts their keys; other values raise `TypeError`. -/
def jIter : JVal → Except PyErr (List JVal)
  | .jarr xs => .ok xs
  | .jstr s => .ok (s.data.map (fun c => .jstr ⟨[c]⟩))
  | .jobj fs => .ok (fs.map (fun p => .jstr p.1))
  | _ => .error .typeError

/-- Python `v.get(k, dflt)`: only dicts have `.get`; anything else
raises `AttributeError`. -/
def jGetAttr (v : JVal) (k : String) (dflt : JVal) : Except PyErr JVal :=
  match v with
  | .jobj fs => .ok ((fs.lookup k).getD dflt)
  | _ => .error .attributeError

/-- Whether a value may be used as a Python dict key. -/
def jHashable : JVal → Bool
  | .jarr _ => false
  | .jobj _ => false
  | _ => true

/-- Python `f"{v}"` / `str(v)` for the JSON scalars (containers are
abbreviated; the name index never influences a verified claim). -/
def jToStrF : JVal → String
  | .jstr s => s
  | .jnum n => toString n
  | .jbool b => if b then "True" else "False"
  | .jnull => "None"
  | .jarr _ => "[...]"
  | .jobj _ => "{...}"

def jdictInsert {α : Type} : List (JVal × α) → JVal → α → List (JVal × α)
  | [], k, v => [(k, v)]
  | p :: rest, k, v =>
    if p.1 == k then (p.1, v) :: rest else p :: jdictInsert rest k v

/-- The dict comprehension `{client['caura_id']: client for client in
clients_list}` of the envelope branch: runs to completion (or raises)
before anything is assigned to `self._client_cache`. -/
def buildCacheEnvelope (clis : JVal) : Except PyErr (List (JVal × JVal)) :=
  match jIter clis with
  | .error e => .error e
  | .ok elems =>
    elems.foldl
      (fun acc el =>
        match acc with
        | .error e => .error e
        | .ok m =>
          match el with
          | .jobj efs =>
            match efs.lookup "caura_id" with
            | some v =>
              if jHashable v then .ok (jdictInsert m v el) else .error .typeError
            | none => .error .keyError
          | _ => .error .typeError)
      (.ok [])

/-- The email-index portion of the per-client loop of `_build_indices`. -/
def indexEmails (cid : JVal) (pinfo : JVal) (st : LoaderState) :
    Except (PyErr × LoaderState) LoaderState :=
  match jGetAttr pinfo "emails" (.jarr []) with
  | .error e => .error (e, st)
  | .ok emailsV =>
    match jIter emailsV with
    | .error e => .error (e, st)
    | .ok emails =>
      emails.foldl
        (fun acc em =>
          match acc with
          | .error e => .error e
          | .ok st =>
            if jTruthy em then
              match em with
              | .jstr s =>
                .ok { st with
                      email_index := some (dictInsert (st.email_index.getD [])
                                      (pyLowerS s) cid) }
              | _ => .error (.attributeError, st)
            else .ok st)
        (.ok st)

/-- The name-index portion of the per-client loop of `_build_indices`. -/
def indexName (cid : JVal) (pinfo : JVal) (st : LoaderState) :
    Except (PyErr × LoaderState) LoaderState :=
  match jGetAttr pinfo "given_name" (.jstr "") with
  | .error e => .error (e, st)
  | .ok given =>
    match jGetAttr pinfo "family_name" (.jstr "") with
    | .error e => .error (e, st)
    | .ok family =>
      let full_name := pyStripS (jToStrF given ++ " " ++ jToStrF family)
      if full_name ≠ "" then
        let key := pyLowerS full_name
        let cur := (dictGet? (st.name_index.getD []) key).getD []
        .ok { st with
              name_index := some (dictInsert (st.name_index.getD []) key
                              (cur ++ [cid])) }
      else .ok st

/-- The platform-index portion of the per-client loop of
`_build_indices`. -/
def indexPlatforms (cid : JVal) (client : JVal) (st : LoaderState) :
    Except (PyErr × LoaderState) LoaderState :=
  match jGetAttr client "platform_identifiers" (.jarr []) with
  | .error e => .error (e, st)
  | .ok pidsV =>
    match jIter pidsV with
    | .error e => .error (e, st)
    | .ok pids =>
      pids.foldl
        (fun acc pinfo =>
          match acc with
          | .error e => .error e
          | .ok st =>
            match jGetAttr pinfo "platform" (.jstr "") with
            | .error e => .error (e, st)
            | .ok platform =>
              match jGetAttr pinfo "identifiers" (.jobj []) with
              | .error e => .error (e, st)
              | .ok identifiers =>
                if !jHashable platform then .error (.typeError, st)
                else
                  let pidx := st.platform_index.getD []
                  let pidx := if ((pidx.lookup platform)).isSome then pidx
                              else jdictInsert pidx platform []
                  match jGetAttr identifiers "client_id" .jnull with
                  | .error e => .error (e, st)
                  | .ok client_id =>
                    match jGetAttr identifiers "display_name" .jnull with
                    | .error e => .error (e, st)
                    | .ok display_name =>
                      let sub := (pidx.lookup platform).getD []
                      if jTruthy client_id ∧ !jHashable client_id then
                        .error (.typeError,
                          { st with platform_index := some pidx })
                      else
                        let sub := if jTruthy client_id then
                                     jdictInsert sub client_id cid
                                   else sub
                        let pidx := jdictInsert pidx platform sub
                        if jTruthy display_name then
                          match display_name with
                          | .jstr s =>
                            let sub := jdictInsert sub (.jstr (pyLowerS s)) cid
                            .ok { st with
                                  platform_index := some (jdictInsert pidx
                                                      platform sub) }
                          | _ => .error (.attributeError,
                                   { st with platform_index := some pidx })
                        else .ok { st with platform_index := some pidx })
        (.ok st)

/-- One iteration of the client loop of `_build_indices`. -/
def buildIndicesClient (cid client : JVal) (st : LoaderState) :
    Except (PyErr × LoaderState) LoaderState :=
  match jGetAttr client "personal_info" (.jobj []) with
  | .error e => .error (e, st)
  | .ok pinfo =>
    match indexEmails cid pinfo st with
    | .error e => .error e
    | .ok st =>
      match indexName cid pinfo st with
      | .error e => .error e
      | .ok st => indexPlatforms cid client st

/-- `ClientMapLoader._build_indices`: the early return on a falsy cache,
then the three indices reset to empty dicts and filled client by
client.  A raise leaves whatever had been assigned so far. -/
def build_indices (st : LoaderState) : Except (PyErr × LoaderState) LoaderState :=
  match st.client_cache with
  | none => .ok st
  | some m =>
    if m.isEmpty then .ok st
    else
      let st := { st with email_index := some [], name_index := some [],
                          platform_index := some [] }
      m.foldl
        (fun acc p =>
          match acc with
          | .error e => .error e
          | .ok st => buildIndicesClient p.1 p.2 st)
        (.ok st)

/-- `ClientMapLoader.load_client_map` on an already-parsed snapshot
`data`: return the cache if present; otherwise accept a `clients`
envelope (keyed by each record's `caura_id`) or any other dict as a flat
mapping, and raise `ValueError("Invalid client registry format")` for
every non-dict; on success assign the cache and build the indices.  An
error result carries the loader state at the moment of the raise. -/
def load_client_map (data : JVal) (st : LoaderState) :
    Except (PyErr × LoaderState) LoaderState :=
  if st.client_cache.isSome then .ok st
  else
    match data with
    | .jobj fs =>
      if (fs.lookup "clients").isSome then
        match buildCacheEnvelope ((fs.lookup "clients").getD .jnull) with
        | .error e => .error (e, st)
        | .ok cache => build_indices { st with client_cache := some cache }
      else
        build_indices
          { st with
            client_cache := some (fs.map (fun p => (JVal.jstr p.1, p.2))) }
    | _ => .error (.valueError "Invalid client registry format", st)

/-! ## `PostReviewMatcher` and the two-phase post-review run -/

/-- The manually extracted PII columns of one row. -/
structure PiiData where
  name : Option String := none
  address : Option String := none
  acn : Option String := none
  invoice : Option String := none
  phone : Option String := none
  email : Option String := none
deriving Repr, DecidableEq

/-- `''.join(filter(str.isdigit, s))`. -/
def digitsOnly (s : String) : String :=
  ⟨s.data.filter Char.isDigit⟩

/-- `PostReviewMatcher._find_client_by_acn`: first client carrying an
`aged_care` platform entry whose `acn` identifier equals the input. -/
def find_client_by_acn (reg : Registry) (acn : String) : Option String :=
  reg.findSome? (fun p =>
    p.2.platform_identifiers.findSome? (fun pe =>
      if pe.platform = "aged_care" ∧ pe.acn = some acn then some p.1 else none))

/-- `PostReviewMatcher._find_client_by_phone`: digits-only comparison
against every contact number, first hit wins. -/
def find_client_by_phone (reg : Registry) (phone : String) : Option String :=
  let clean_phone := digitsOnly phone
  reg.findSome? (fun p =>
    p.2.personal_info.contact_numbers.findSome? (fun contact =>
      if digitsOnly contact = clean_phone then some p.1 else none))

/-- `PostReviewMatcher._fuzzy_address_match`: length gate, then the
shared street-address search at the lower minimum score `0.70`. -/
def pr_fuzzy_address_match (th : Thresholds) (reg : Registry)
    (tx : Transaction) (address : String) : Option MatchResult :=
  if address = "" ∨ (pyStripS address).length < 5 then none
  else
    match find_client_by_street_address reg address (70 / 100) with
    | some (cid, sc, det) =>
      some { transaction_id := tx.transaction_id, client_caura_id := some cid,
             confidence_score := sc, match_method := "extracted_address_fuzzy",
             match_details := det ++ [("extracted_address", .s address)],
             is_matched := true,
             requires_review := decide (sc < th.high) }
    | none => none

/-- `PostReviewMatcher._fuzzy_name_match`: whole-string `fuzz.ratio`
against every client's full name at the fixed lower threshold `0.75`. -/
def pr_fuzzy_name_match (th : Thresholds) (reg : Registry)
    (tx : Transaction) (name : String) : Option MatchResult :=
  if name = "" ∨ (pyStripS name).length < 2 then none
  else
    let best := reg.foldl
      (fun best p =>
        let full_name := fullName p.2
        if full_name = "" then best
        else
          let score : ℚ :=
            (fuzzRatio (pyLowerS name) (pyLowerS full_name) : ℚ) / 100
          if bestScoreOf best < score ∧ 75 / 100 ≤ score then
            some (p.1, score, full_name)
          else best)
      none
    match best with
    | some (cid, sc, nm) =>
      if nm ≠ "" ∧ 75 / 100 ≤ sc then
        some { transaction_id := tx.transaction_id,
               client_caura_id := some cid, confidence_score := sc,
               match_method := "extracted_name_fuzzy",
               match_details := [("matched_name", .s nm),
                                 ("extracted_name", .s name),
                                 ("fuzzy_score", .q sc)],
               is_matched := true,
               requires_review := decide (sc < th.high) }
      else none
    | none => none

/-- `PostReviewMatcher.match_by_extracted_pii`: email exact, ACN exact,
phone exact (score `0.95`), address fuzzy, name fuzzy, then the
`no_match_post_review` result. -/
def match_by_extracted_pii (th : Thresholds) (reg : Registry)
    (tx : Transaction) (pii : PiiData) : MatchResult :=
  let r1 : Option MatchResult :=
    if truthy pii.email then
      match find_client_by_email reg (pii.email.getD "") with
      | some cid =>
        if cid = "" then none
        else some { transaction_id := tx.transaction_id,
                    client_caura_id := some cid, confidence_score := 1,
                    match_method := "extracted_email",
                    match_details := [("matched_email", .s (pii.email.getD ""))],
                    is_matched := true, requires_review := false }
      | none => none
    else none
  let r2 : Option MatchResult :=
    if truthy pii.acn then
      match find_client_by_acn reg (pii.acn.getD "") with
      | some cid =>
        if cid = "" then none
        else some { transaction_id := tx.transaction_id,
                    client_caura_id := some cid, confidence_score := 1,
                    match_method := "extracted_acn",
                    match_details := [("matched_acn", .s (pii.acn.getD ""))],
                    is_matched := true, requires_review := false }
      | none => none
    else none
  let r3 : Option MatchResult :=
    if truthy pii.phone then
      match find_client_by_phone reg (pii.phone.getD "") with
      | some cid =>
        if cid = "" then none
        else some { transaction_id := tx.transaction_id,
                    client_caura_id := some cid, confidence_score := 95 / 100,
                    match_method := "extracted_phone",
                    match_details := [("matched_phone", .s (pii.phone.getD ""))],
                    is_matched := true, requires_review := false }
      | none => none
    else none
  let r4 : Option MatchResult :=
    if truthy pii.address then pr_fuzzy_address_match th reg tx (pii.address.getD "")
    else none
  let r5 : Option MatchResult :=
    if truthy pii.name then pr_fuzzy_name_match th reg tx (pii.name.getD "")
    else none
  (((r1.orElse fun _ => r2).orElse fun _ => r3).orElse fun _ =>
    (r4.orElse fun _ => r5)).getD
    { transaction_id := tx.transaction_id, client_caura_id := none,
      confidence_score := 0, match_method := "no_match_post_review",
      match_details := [], is_matched := false, requires_review := true }

/-- One spreadsheet row of the post-review run: the reconstructed
transaction, its extracted PII columns, and whether the original run
had already matched it (`row.get('Matched') == 'Matched'`). -/
structure PostReviewRow where
  tx : Transaction
  pii : PiiData
  previously_matched : Bool
deriving Repr

/-- A value of the `email_to_client_map` dict built during the first
pass. -/
structure EmailMapEntry where
  client_id : Option String
  method : String
  details : List (String × DetailVal)
deriving Repr

/-- The first pass of the post-review `main`: one `MatchResult` per row
(in row order), recording an `email → client` mapping for every row
matched through PII that carries an email. -/
def post_review_phase1 (th : Thresholds) (reg : Registry)
    (rows : List PostReviewRow) :
    List MatchResult × List (String × EmailMapEntry) :=
  rows.foldl
    (fun acc row =>
      if row.previously_matched then
        (acc.1 ++ [{ transaction_id := row.tx.transaction_id,
                     client_caura_id := some "PREVIOUSLY_MATCHED",
                     confidence_score := 1,
                     match_method := "previously_matched",
                     match_details := [], is_matched := true,
                     requires_review := false }], acc.2)
      else
        let r := match_by_extracted_pii th reg row.tx row.pii
        let emap :=
          if r.is_matched ∧ r.client_caura_id ≠ some "PREVIOUSLY_MATCHED"
              ∧ truthy row.tx.email then
            dictInsert acc.2 (row.tx.email.getD "")
              ⟨r.client_caura_id, r.match_method, r.match_details⟩
          else acc.2
        (acc.1 ++ [r], emap))
    ([], [])

/-- The second pass of the post-review `main`: every still-unmatched
row whose email appears in the first-pass mapping is replaced by a
propagated result at fixed confidence `0.90`. -/
def post_review_phase2 (results : List MatchResult)
    (rows : List PostReviewRow) (emap : List (String × EmailMapEntry)) :
    List MatchResult :=
  (results.zip rows).map
    (fun pr =>
      if pr.1.is_matched ∨ ¬truthy pr.2.tx.email then pr.1
      else
        match dictGet? emap (pr.2.tx.email.getD "") with
        | some m =>
          { transaction_id := pr.2.tx.transaction_id,
            client_caura_id := m.client_id, confidence_score := 90 / 100,
            match_method := "email_propagated_from_" ++ m.method,
            match_details :=
              [("propagated_from_email", .s (pr.2.tx.email.getD "")),
               ("original_match_method", .s m.method),
               ("original_details", .m m.details)],
            is_matched := true, requires_review := false }
        | none => pr.1)

/-- Both passes of the post-review `main`, in order: the propagation
pass starts only after the first pass has processed every row. -/
def post_review_batch (th : Thresholds) (reg : Registry)
    (rows : List PostReviewRow) : List MatchResult :=
  let p := post_review_phase1 th reg rows
  post_review_phase2 p.1 rows p.2

/-! ## Specification-side selection rule for the address search (C5)

`specAddressSearch` renders claim C5's words as a definition: each
candidate's score is the maximum of its applicable strategy scores, and
the result is the candidate with the single highest score that is at
least the minimum, ties broken by first-seen iteration order.
`specAddressSearchPos` is the amended rule (scores must additionally be
strictly positive).  Both are compared against the source-translated
`find_client_by_street_address`. -/

/-- A candidate's score: the maximum of its applicable strategy scores
(`none` when the client has no location or no address components). -/
def specCandScore (address_description normalized_input : String)
    (c : ClientRecord) : Option ℚ :=
  match c.location with
  | none => none
  | some loc =>
    if clientAddrParts loc = [] then none
    else
      some (qListMax
        ((clientAddrPairs address_description normalized_input loc).map
          (fun q => q.2)))

/-- All candidates in registry iteration order, with their scores. -/
def specCandList (reg : Registry) (address_description normalized_input : String) :
    List (String × ℚ) :=
  reg.filterMap
    (fun p => (specCandScore address_description normalized_input p.2).map
      (fun sc => (p.1, sc)))

/-- Maximum of the scores of a candidate list. -/
def maxScores : List (String × ℚ) → Option ℚ
  | [] => none
  | c :: rest =>
    match maxScores rest with
    | none => some c.2
    | some m => some (max c.2 m)

/-- Claim C5's selection rule as stated: among candidates scoring at
least the minimum, the single highest score wins; ties break to the
first-seen candidate. -/
def specAddressSearch (reg : Registry) (addr : String) (minScore : ℚ) :
    Option (String × ℚ) :=
  if addr = "" ∨ (pyStripS addr).length < 5 then none
  else
    let qual := (specCandList reg addr (normalizeAddress addr)).filter
      (fun c => decide (minScore ≤ c.2))
    match maxScores qual with
    | none => none
    | some m => qual.find? (fun c => decide (c.2 = m))

/-- The amended selection rule: a candidate must also score strictly
above zero (the source's running best starts at `0.0` and only strict
improvements are kept). -/
def specAddressSearchPos (reg : Registry) (addr : String) (minScore : ℚ) :
    Option (String × ℚ) :=
  if addr = "" ∨ (pyStripS addr).length < 5 then none
  else
    let qual := (specCandList reg addr (normalizeAddress addr)).filter
      (fun c => decide (minScore ≤ c.2) && decide (0 < c.2))
    match maxScores qual with
    | none => none
    | some m => qual.find? (fun c => decide (c.2 = m))

/-- Selection among candidates scoring at least `minScore` and strictly
above `cur`: the single highest such score wins, first-seen on ties
(`none` when no candidate qualifies).  The building block relating the
source's strict-improvement scan to the specification-side rules. -/
def pickAbove (minScore cur : ℚ) (cands : List (String × ℚ)) :
    Option (String × ℚ) :=
  match maxScores (cands.filter
      (fun c => decide (minScore ≤ c.2) && decide (cur < c.2))) with
  | none => none
  | some m =>
    (cands.filter (fun c => decide (minScore ≤ c.2) && decide (cur < c.2))).find?
      (fun c => decide (c.2 = m))

/-- Score of the running best of the abstract scan (`0.0` before any
candidate is kept). -/
def bestScore2 : Option (String × ℚ) → ℚ
  | none => 0
  | some c => c.2

/-- The source's strict-improvement scan, abstracted to bare
`(caura_id, score)` candidates: the proof layer connecting
`find_client_by_street_address` to the specification-side rules. -/
def scanCands (minScore : ℚ) : List (String × ℚ) → Option (String × ℚ) →
    Option (String × ℚ)
  | [], st => st
  | c :: rest, st =>
    if bestScore2 st < c.2 ∧ minScore ≤ c.2 then scanCands minScore rest (some c)
    else scanCands minScore rest st

/-- Total of a counter dict's values. -/
def sumCounts (d : List (String × Nat)) : Nat :=
  (d.map (fun p => p.2)).sum

/-! ## Concrete fixtures for witnesses and counterexamples -/

/-- Registry with the single client "Alice Zed" (no other data). -/
def regAlice : Registry :=
  [("CL1", { personal_info := { given_name := "Alice", family_name := "Zed" } })]

/-- A bank-line transaction whose description has nothing to do with
any client name. -/
def txNoise : Transaction :=
  { transaction_id := "T1", description := "zz pay 5678", platform := "bank" }

/-- Registry with one nameless client living at "zz qq ww, Parkville". -/
def regParkville : Registry :=
  [("CL1", { location := some { address_1 := "zz qq ww", suburb := "parkville" } })]

/-- A transaction whose description mentions only the suburb. -/
def txParkville : Transaction :=
  { transaction_id := "T2", description := "pay parkville", platform := "bank" }

/-- A configuration whose high-confidence threshold was raised to 0.90. -/
def cfgHigh90 : MatchingConfig :=
  { thresholds := { high := 9 / 10 } }

/-- Registry with one client reachable by ShiftCare id and by email. -/
def regExact : Registry :=
  [("CL7",
    { personal_info := { emails := ["a@x.com"] },
      platform_identifiers := [{ platform := "shiftcare", client_id := some "SC1" }] })]

/-- A transaction carrying both the matching platform identifier and the
matching email. -/
def txBoth : Transaction :=
  { transaction_id := "T3", description := "payment",
    email := some "A@X.COM", client_identifier := some "SC1",
    platform := "shiftcare" }

/-- The same transaction with the identifier removed. -/
def txEmailOnly : Transaction :=
  { transaction_id := "T4", description := "payment",
    email := some "A@X.COM", platform := "shiftcare" }

/-- Registry with one client whose only location data is the suburb
"park" — sharing no characters with the input `"zzzzz"`. -/
def regPark : Registry :=
  [("CL1", { location := some { suburb := "park" } })]

/-- The snapshot `{"CL1": "garbage"}`: a dict, hence accepted as a flat
mapping, whose value is not a record. -/
def dataGarbage : JVal :=
  .jobj [("CL1", .jstr "garbage")]

/-- The loader state after `dataGarbage` has been accepted and the index
build has crashed: the cache and the three empty indices are published. -/
def garbageState : LoaderState :=
  { client_cache := some [(.jstr "CL1", .jstr "garbage")],
    email_index := some [], name_index := some [],
    platform_index := some [] }

/-- Registry with the client `C3` reachable by phone. -/
def regPhone : Registry :=
  [("C3", { personal_info := { contact_numbers := ["0412345678"] } })]

/-- Post-review rows: `T1` is PII-resolvable by phone and carries the
email `c3@y.com`; `T2` is unresolvable but shares that email. -/
def rowsPropagation : List PostReviewRow :=
  [{ tx := { transaction_id := "T1", description := "inv 1",
             email := some "c3@y.com", platform := "stripe" },
     pii := { phone := some "0412 345 678" }, previously_matched := false },
   { tx := { transaction_id := "T2", description := "inv 2",
             email := some "c3@y.com", platform := "stripe" },
     pii := {}, previously_matched := false }]

/-! ## Strategy-shape lemmas -/

/-- Any property holding for every strategy result and for the default
holds for the cascade's outcome. -/
theorem chainShape (P : MatchResult → Prop) {res : MatchResult}
    (o1 o2 o3 o4 o5 : Option MatchResult) (d : MatchResult)
    (heq : res = (((o1.orElse fun _ => o2).orElse fun _ => o3).orElse fun _ =>
      (o4.orElse fun _ => o5)).getD d)
    (h1 : ∀ r, o1 = some r → P r) (h2 : ∀ r, o2 = some r → P r)
    (h3 : ∀ r, o3 = some r → P r) (h4 : ∀ r, o4 = some r → P r)
    (h5 : ∀ r, o5 = some r → P r) (hd : P d) : P res := by
  subst heq
  cases o1 <;> cases o2 <;> cases o3 <;> cases o4 <;> cases o5 <;>
    simp_all [Option.orElse]

/-- Shape of a successful fuzzy-name strategy result. -/
theorem fuzzy_name_match_shape (cfg : MatchingConfig) (reg : Registry)
    (tx : Transaction) (r : MatchResult)
    (h : fuzzy_name_match cfg reg tx = some r) :
    r.is_matched = true ∧ r.client_caura_id ≠ none ∧
      r.match_method = "fuzzy_name" ∧
      r.requires_review = decide (r.confidence_score < cfg.thresholds.high) := by
  simp only [fuzzy_name_match] at h
  split at h
  · split at h
    · cases h
      simp
    · cases h
  · cases h

/-- Shape of a successful paper-receipt strategy result. -/
theorem paper_receipt_match_shape (cfg : MatchingConfig) (reg : Registry)
    (tx : Transaction) (r : MatchResult)
    (h : paper_receipt_match cfg reg tx = some r) :
    r.is_matched = true ∧ r.client_caura_id ≠ none ∧
      r.match_method = "paper_receipt_name_fuzzy" ∧
      r.requires_review = decide (r.confidence_score < cfg.thresholds.high) := by
  simp only [paper_receipt_match] at h
  split at h
  · cases h
  · split at h
    · split at h
      · cases h
        simp
      · cases h
    · cases h

/-- Shape of a successful address strategy result. -/
theorem address_match_shape (cfg : MatchingConfig) (reg : Registry)
    (tx : Transaction) (r : MatchResult)
    (h : address_match cfg reg tx = some r) :
    r.is_matched = true ∧ r.client_caura_id ≠ none ∧
      r.match_method = "address_match" ∧
      r.requires_review = decide (r.confidence_score < cfg.thresholds.high) := by
  simp only [address_match] at h
  split at h
  · cases h
    simp
  · cases h

/-- The cascade returns one of three result shapes: an exact match, a
scored fuzzy match reviewed against the configured high threshold, or
the literal no-match result. -/
theorem match_transaction_shape (cfg : MatchingConfig) (reg : Registry)
    (tx : Transaction) :
    ((match_transaction cfg reg tx).match_method = "exact_client_id" ∨
       (match_transaction cfg reg tx).match_method = "exact_email") ∧
      (match_transaction cfg reg tx).is_matched = true ∧
      (match_transaction cfg reg tx).client_caura_id ≠ none ∧
      (match_transaction cfg reg tx).confidence_score = 1 ∧
      (match_transaction cfg reg tx).requires_review = false ∨
    ((match_transaction cfg reg tx).match_method = "paper_receipt_name_fuzzy" ∨
       (match_transaction cfg reg tx).match_method = "fuzzy_name" ∨
       (match_transaction cfg reg tx).match_method = "address_match") ∧
      (match_transaction cfg reg tx).is_matched = true ∧
      (match_transaction cfg reg tx).client_caura_id ≠ none ∧
      (match_transaction cfg reg tx).requires_review =
        decide ((match_transaction cfg reg tx).confidence_score
          < cfg.thresholds.high) ∨
    match_transaction cfg reg tx =
      { transaction_id := tx.transaction_id, client_caura_id := none,
        confidence_score := 0, match_method := "no_match",
        match_details := [], is_matched := false, requires_review := true } := by
  have key : ∀ r, r = match_transaction cfg reg tx →
      ((r.match_method = "exact_client_id" ∨ r.match_method = "exact_email") ∧
        r.is_matched = true ∧ r.client_caura_id ≠ none ∧
        r.confidence_score = 1 ∧ r.requires_review = false) ∨
      ((r.match_method = "paper_receipt_name_fuzzy" ∨
         r.match_method = "fuzzy_name" ∨ r.match_method = "address_match") ∧
        r.is_matched = true ∧ r.client_caura_id ≠ none ∧
        r.requires_review = decide (r.confidence_score < cfg.thresholds.high)) ∨
      r = { transaction_id := tx.transaction_id, client_caura_id := none,
            confidence_score := 0, match_method := "no_match",
            match_details := [], is_matched := false,
            requires_review := true } := by
    intro r hr
    unfold match_transaction at hr
    refine chainShape
      (fun r =>
        ((r.match_method = "exact_client_id" ∨ r.match_method = "exact_email") ∧
          r.is_matched = true ∧ r.client_caura_id ≠ none ∧
          r.confidence_score = 1 ∧ r.requires_review = false) ∨
        ((r.match_method = "paper_receipt_name_fuzzy" ∨
           r.match_method = "fuzzy_name" ∨ r.match_method = "address_match") ∧
          r.is_matched = true ∧ r.client_caura_id ≠ none ∧
          r.requires_review = decide (r.confidence_score < cfg.thresholds.high)) ∨
        r = { transaction_id := tx.transaction_id, client_caura_id := none,
              confidence_score := 0, match_method := "no_match",
              match_details := [], is_matched := false,
              requires_review := true })
      _ _ _ _ _ _ hr ?_ ?_ ?_ ?_ ?_ ?_
    · intro r h
      split at h
      · split at h
        · split at h
          · cases h
          · cases h
            exact Or.inl (by simp)
        · cases h
      · cases h
    · intro r h
      split at h
      · split at h
        · split at h
          · cases h
          · cases h
            exact Or.inl (by simp)
        · cases h
      · cases h
    · intro r h
      split at h
      · obtain ⟨h1, h2, h3, h4⟩ := paper_receipt_match_shape cfg reg tx r h
        exact Or.inr (Or.inl ⟨Or.inl h3, h1, h2, h4⟩)
      · cases h
    · intro r h
      obtain ⟨h1, h2, h3, h4⟩ := fuzzy_name_match_shape cfg reg tx r h
      exact Or.inr (Or.inl ⟨Or.inr (Or.inl h3), h1, h2, h4⟩)
    · intro r h
      obtain ⟨h1, h2, h3, h4⟩ := address_match_shape cfg reg tx r h
      exact Or.inr (Or.inl ⟨Or.inr (Or.inr h3), h1, h2, h4⟩)
    · exact Or.inr (Or.inr rfl)
  exact key _ rfl

/-- `confidence_level` is "high" exactly when the score reaches the
hardcoded `0.85`. -/
theorem confidenceLevel_eq_high (r : MatchResult) :
    confidenceLevel r = "high" ↔ 85 / 100 ≤ r.confidence_score := by
  unfold confidenceLevel
  split
  · simp [*]
  · split <;> simp_all

/-! ## Claim theorems -/

set_option maxRecDepth 200000 in
/-- C1: a claim of the spec — "for every transaction that reaches the
fuzzy-name strategy, a client is returned only if its similarity score
is at least the configured name threshold (default 0.85)" — is violated
by the code: `_fuzzy_name_match` gates on `name_threshold / 100.0`
(0.0085 with the default configuration), so with the default
configuration the nonsense description `"zz pay 5678"` is matched to
the client "Alice Zed" at score 0.25, far below the configured 0.85
threshold.  (The division is a slip: `_address_match` and the
post-review `_fuzzy_name_match` use their thresholds undivided.) -/
theorem c1_fuzzy_threshold_code_bug :
    ({} : MatchingConfig).name_threshold = 85 / 100 ∧
    (match_transaction {} regAlice txNoise).match_method = "fuzzy_name" ∧
    (match_transaction {} regAlice txNoise).is_matched = true ∧
    (match_transaction {} regAlice txNoise).confidence_score = 1 / 4 ∧
    (match_transaction {} regAlice txNoise).confidence_score < 85 / 100 := by
  refine ⟨?_, ?_, ?_, ?_, ?_⟩ <;> with_unfolding_all decide

set_option maxRecDepth 200000 in
/-- C2 counterexample: with the high threshold configured to 0.90, the
suburb-containment address match at score 0.85 requires review, yet the
band recomputed from the score by `confidence_level` (hardcoded 0.85)
is "high" — `requires_review = false` and "band is high" disagree for
this non-exact result. -/
theorem c2_band_mismatch :
    (match_transaction cfgHigh90 regParkville txParkville).match_method
        = "address_match" ∧
    ¬((match_transaction cfgHigh90 regParkville txParkville).requires_review
          = false
        ↔ confidenceLevel (match_transaction cfgHigh90 regParkville txParkville)
          = "high") := by
  constructor <;> with_unfolding_all decide

/-- C2 amended: when the configured high threshold coincides with the
`0.85` hardcoded in `confidence_level` (the default configuration), a
non-exact result requires no review exactly when the band recomputed
from its score is "high". -/
theorem c2_band_consistent_at_default (cfg : MatchingConfig)
    (reg : Registry) (tx : Transaction)
    (hhigh : cfg.thresholds.high = 85 / 100)
    (hm1 : (match_transaction cfg reg tx).match_method ≠ "exact_client_id")
    (hm2 : (match_transaction cfg reg tx).match_method ≠ "exact_email") :
    (match_transaction cfg reg tx).requires_review = false
      ↔ confidenceLevel (match_transaction cfg reg tx) = "high" := by
  rcases match_transaction_shape cfg reg tx with
    ⟨hm, _⟩ | ⟨_, _, _, hrev⟩ | heq
  · rcases hm with hm | hm
    · exact absurd hm hm1
    · exact absurd hm hm2
  · rw [hrev, hhigh, confidenceLevel_eq_high]
    constructor
    · intro h
      simpa using of_decide_eq_false h
    · intro h
      simp [not_lt.mpr h]
  · rw [heq]
    simp only [confidenceLevel]
    norm_num
    decide

set_option maxRecDepth 100000 in
/-- C2 witness: the amended equivalence applied to the concrete
suburb-containment scenario under the default configuration. -/
theorem c2_band_consistent_at_default_witness :
    (match_transaction {} regParkville txParkville).requires_review = false
      ↔ confidenceLevel (match_transaction {} regParkville txParkville)
        = "high" :=
  c2_band_consistent_at_default {} regParkville txParkville rfl
    (by with_unfolding_all decide) (by with_unfolding_all decide)

/-- C4: an exactly-matching platform identifier yields
`"exact_client_id"` at score 1.0 with no review, and does so even when a
matching email is also present (identifier strategy runs first); with no
identifier, a matching email yields `"exact_email"` at score 1.0 with no
review; and any result produced by an exact strategy never requires
review. -/
theorem c4_exact_strategies (cfg : MatchingConfig) (reg : Registry)
    (tx : Transaction) :
    (∀ cid, truthy tx.client_identifier = true →
      find_client_by_platform_id reg tx.platform
          (tx.client_identifier.getD "") = some cid →
      cid ≠ "" →
      match_transaction cfg reg tx =
        { transaction_id := tx.transaction_id, client_caura_id := some cid,
          confidence_score := 1, match_method := "exact_client_id",
          match_details :=
            [("matched_identifier", .s (tx.client_identifier.getD ""))],
          is_matched := true, requires_review := false }) ∧
    (∀ cid, truthy tx.client_identifier = false → truthy tx.email = true →
      find_client_by_email reg (tx.email.getD "") = some cid →
      cid ≠ "" →
      match_transaction cfg reg tx =
        { transaction_id := tx.transaction_id, client_caura_id := some cid,
          confidence_score := 1, match_method := "exact_email",
          match_details := [("matched_email", .s (tx.email.getD ""))],
          is_matched := true, requires_review := false }) ∧
    ((match_transaction cfg reg tx).match_method = "exact_client_id" ∨
       (match_transaction cfg reg tx).match_method = "exact_email" →
      (match_transaction cfg reg tx).requires_review = false) := by
  refine ⟨?_, ?_, ?_⟩
  · intro cid htr hfind hne
    unfold match_transaction
    rw [if_pos htr, hfind]
    dsimp only
    rw [if_neg hne]
    rfl
  · intro cid htr hem hfind hne
    unfold match_transaction
    rw [if_neg (by simp [htr]), if_pos hem, hfind]
    dsimp only
    rw [if_neg hne]
    rfl
  · intro hm
    rcases match_transaction_shape cfg reg tx with
      ⟨_, _, _, _, hrev⟩ | ⟨hm', _⟩ | heq
    · exact hrev
    · rcases hm with hm | hm <;> rcases hm' with hm' | hm' | hm' <;>
        simp [hm] at hm'
    · rcases hm with hm | hm <;> rw [heq] at hm <;> simp at hm

set_option maxRecDepth 100000 in
/-- C4 witness: the concrete one-client registry where both the
ShiftCare identifier and the email resolve; the identifier wins, the
email-only transaction falls to `exact_email`, and both carry
`requires_review = false`. -/
theorem c4_exact_strategies_witness :
    match_transaction {} regExact txBoth =
      { transaction_id := "T3", client_caura_id := some "CL7",
        confidence_score := 1, match_method := "exact_client_id",
        match_details := [("matched_identifier", .s "SC1")],
        is_matched := true, requires_review := false } ∧
    match_transaction {} regExact txEmailOnly =
      { transaction_id := "T4", client_caura_id := some "CL7",
        confidence_score := 1, match_method := "exact_email",
        match_details := [("matched_email", .s "A@X.COM")],
        is_matched := true, requires_review := false } ∧
    (match_transaction {} regExact txBoth).requires_review = false :=
  ⟨(c4_exact_strategies {} regExact txBoth).1 "CL7" rfl rfl (by decide),
   (c4_exact_strategies {} regExact txEmailOnly).2.1 "CL7" rfl rfl rfl
     (by decide),
   (c4_exact_strategies {} regExact txBoth).2.2
     (Or.inl (by
       rw [(c4_exact_strategies {} regExact txBoth).1 "CL7" rfl rfl
         (by decide)]))⟩

/-- C7: batch resolution is exactly the element-wise resolver — one
result per transaction, in input order, each equal to
`match_transaction` on that transaction alone. -/
theorem c7_bulk_match_pointwise (cfg : MatchingConfig) (reg : Registry)
    (txs : List Transaction) :
    (bulk_match_transactions cfg reg txs).length = txs.length ∧
    ∀ i : Nat, (bulk_match_transactions cfg reg txs)[i]?
      = (txs[i]?).map (match_transaction cfg reg) := by
  refine ⟨List.length_map _ _, fun i => ?_⟩
  simp [bulk_match_transactions]

/-- C9: for every result of the resolver, `is_matched` holds exactly
when a client id is present, exactly when the method is not
`"no_match"`; and an unmatched result has score 0, empty details, and
requires review. -/
theorem c9_result_invariants (cfg : MatchingConfig) (reg : Registry)
    (tx : Transaction) :
    ((match_transaction cfg reg tx).is_matched = true ↔
      (match_transaction cfg reg tx).client_caura_id ≠ none) ∧
    ((match_transaction cfg reg tx).is_matched = true ↔
      (match_transaction cfg reg tx).match_method ≠ "no_match") ∧
    ((match_transaction cfg reg tx).is_matched = false →
      (match_transaction cfg reg tx).confidence_score = 0 ∧
      (match_transaction cfg reg tx).match_details = [] ∧
      (match_transaction cfg reg tx).requires_review = true) := by
  rcases match_transaction_shape cfg reg tx with
    ⟨hm, hmt, hcid, _, _⟩ | ⟨hm, hmt, hcid, _⟩ | heq
  · refine ⟨by simp [hmt, hcid], ?_, fun h => ?_⟩
    · rcases hm with hm | hm <;> simp [hmt, hm]
    · rw [hmt] at h
      cases h
  · refine ⟨by simp [hmt, hcid], ?_, fun h => ?_⟩
    · rcases hm with hm | hm | hm <;> simp [hmt, hm]
    · rw [hmt] at h
      cases h
  · rw [heq]
    refine ⟨by simp, by simp, fun _ => ⟨rfl, rfl, rfl⟩⟩

/-- C9 witness: the invariants at the concrete no-match case (empty
registry) — both equivalences and the unmatched implication
instantiated. -/
theorem c9_result_invariants_witness :
    ((match_transaction {} [] txNoise).is_matched = true ↔
      (match_transaction {} [] txNoise).client_caura_id ≠ none) ∧
    ((match_transaction {} [] txNoise).confidence_score = 0 ∧
      (match_transaction {} [] txNoise).match_details = [] ∧
      (match_transaction {} [] txNoise).requires_review = true) :=
  ⟨(c9_result_invariants {} [] txNoise).1,
   (c9_result_invariants {} [] txNoise).2.2 (by with_unfolding_all decide)⟩

/-- Bumping a counter increases the total count by one. -/
theorem sumCounts_bumpCount (d : List (String × Nat)) (k : String) :
    sumCounts (bumpCount d k) = sumCounts d + 1 := by
  induction d with
  | nil => rfl
  | cons p rest ih =>
    unfold bumpCount
    split
    · simp [sumCounts]
      omega
    · simp only [sumCounts, List.map_cons, List.sum_cons] at ih ⊢
      omega

/-- Folding a bump per list element adds the list's length to the
total. -/
theorem sumCounts_foldl_bump {α : Type} (f : α → String)
    (l : List α) :
    ∀ d, sumCounts (l.foldl (fun d r => bumpCount d (f r)) d)
      = sumCounts d + l.length := by
  induction l with
  | nil => intro d; simp
  | cons x rest ih =>
    intro d
    simp only [List.foldl_cons, List.length_cons]
    rw [ih, sumCounts_bumpCount]
    omega

/-- C10: the report aggregates consistently — the totals add up, both
distributions count every transaction exactly once, and the stored
results are the input list. -/
theorem c10_report_consistency (run_id platform src : String)
    (results : List MatchResult) (pt : ℚ) :
    (fromMatchResults run_id platform src results pt).total_transactions
        = results.length ∧
    (fromMatchResults run_id platform src results pt).matched_transactions +
        (fromMatchResults run_id platform src results pt).unmatched_transactions
      = (fromMatchResults run_id platform src results pt).total_transactions ∧
    sumCounts (fromMatchResults run_id platform src
          results pt).confidence_distribution
      = (fromMatchResults run_id platform src results pt).total_transactions ∧
    sumCounts (fromMatchResults run_id platform src
          results pt).match_method_breakdown
      = (fromMatchResults run_id platform src results pt).total_transactions ∧
    (fromMatchResults run_id platform src results pt).match_results
      = results := by
  unfold fromMatchResults
  refine ⟨rfl, ?_, ?_, ?_, rfl⟩
  · have hle : (results.filter (fun r => r.is_matched)).length ≤ results.length :=
      List.length_filter_le _ _
    simp only
    omega
  · simp only
    rw [sumCounts_foldl_bump (fun r => confidenceLevel r) results]
    simp [sumCounts]
  · simp only
    rw [sumCounts_foldl_bump (fun r => r.match_method) results]
    simp [sumCounts]

/-! ## Loader error taxonomy lemmas (C3) -/

/-- An error is not the registry format `ValueError`. -/
def NotFormatError (e : PyErr) : Prop :=
  ∀ msg, e ≠ .valueError msg

/-- Error invariant for the loader's short-circuiting folds. -/
theorem foldl_except_inv {α β γ : Type} (f : Except γ β → α → Except γ β)
    (P : γ → Prop)
    (hprop : ∀ e a, f (.error e) a = .error e)
    (hg : ∀ st a e, f (.ok st) a = .error e → P e) :
    ∀ (l : List α) (init : Except γ β)
      (hinit : ∀ e, init = .error e → P e)
      (e : γ), l.foldl f init = .error e → P e := by
  intro l
  induction l with
  | nil => intro init hinit e h; exact hinit e h
  | cons x rest ih =>
    intro init hinit e h
    simp only [List.foldl_cons] at h
    refine ih (f init x) ?_ e h
    intro e' he'
    match init with
    | .error e0 =>
      rw [hprop e0 x] at he'
      cases he'
      exact hinit _ rfl
    | .ok st => exact hg st x e' he'

/-- `jIter` only raises `TypeError`. -/
theorem jIter_error (v : JVal) (e : PyErr) (h : jIter v = .error e) :
    NotFormatError e := by
  cases v <;> simp [jIter] at h <;> simp [← h, NotFormatError]

/-- `jGetAttr` only raises `AttributeError`. -/
theorem jGetAttr_error (v : JVal) (k : String) (d : JVal) (e : PyErr)
    (h : jGetAttr v k d = .error e) : NotFormatError e := by
  cases v <;> simp [jGetAttr] at h <;> simp [← h, NotFormatError]

/-- The envelope dict comprehension only raises `TypeError` or
`KeyError`. -/
theorem buildCacheEnvelope_error (clis : JVal) (e : PyErr)
    (h : buildCacheEnvelope clis = .error e) : NotFormatError e := by
  unfold buildCacheEnvelope at h
  split at h
  · cases h
    exact jIter_error _ _ (by assumption)
  · refine foldl_except_inv _ NotFormatError (fun e a => rfl) ?_ _ _
      (by intro e' he'; cases he') e h
    intro m el e' he'
    rcases el <;> simp only at he'
    case jobj efs =>
      rcases hlk : efs.lookup "caura_id" with _ | v <;> rw [hlk] at he' <;>
        simp only at he'
      · cases he'
        simp [NotFormatError]
      · split at he'
        · cases he'
        · cases he'
          simp [NotFormatError]
    all_goals (cases he' ; simp [NotFormatError])

/-- `indexEmails` never raises the format `ValueError`. -/
theorem indexEmails_error (cid pinfo : JVal) (st : LoaderState)
    (e : PyErr) (st' : LoaderState)
    (h : indexEmails cid pinfo st = .error (e, st')) : NotFormatError e := by
  unfold indexEmails at h
  split at h
  · cases h
    exact jGetAttr_error _ _ _ _ (by assumption)
  · split at h
    · cases h
      exact jIter_error _ _ (by assumption)
    · refine foldl_except_inv _ (fun p => NotFormatError p.1)
        (fun e a => rfl) ?_ _ _ (by intro e' he'; cases he') _ h
      intro st a e' he'
      simp only at he'
      split at he'
      · rcases a <;> simp only at he' <;> cases he' <;> simp [NotFormatError]
      · cases he'

/-- `indexName` never raises the format `ValueError`. -/
theorem indexName_error (cid pinfo : JVal) (st : LoaderState)
    (e : PyErr) (st' : LoaderState)
    (h : indexName cid pinfo st = .error (e, st')) : NotFormatError e := by
  unfold indexName at h
  split at h
  · cases h
    exact jGetAttr_error _ _ _ _ (by assumption)
  · split at h
    · cases h
      exact jGetAttr_error _ _ _ _ (by assumption)
    · dsimp only at h
      split at h <;> cases h

/-- `indexPlatforms` never raises the format `ValueError`. -/
theorem indexPlatforms_error (cid client : JVal) (st : LoaderState)
    (e : PyErr) (st' : LoaderState)
    (h : indexPlatforms cid client st = .error (e, st')) :
    NotFormatError e := by
  unfold indexPlatforms at h
  split at h
  · cases h
    exact jGetAttr_error _ _ _ _ (by assumption)
  · split at h
    · cases h
      exact jIter_error _ _ (by assumption)
    · refine foldl_except_inv _ (fun p => NotFormatError p.1)
        (fun e a => rfl) ?_ _ _ (by intro e' he'; cases he') _ h
      intro st a e' he'
      simp only at he'
      rcases hp : jGetAttr a "platform" (.jstr "") with ep | platform <;>
        rw [hp] at he' <;> simp only at he'
      · cases he'
        exact jGetAttr_error _ _ _ _ hp
      · rcases hi : jGetAttr a "identifiers" (.jobj []) with ei | idf <;>
          rw [hi] at he' <;> simp only at he'
        · cases he'
          exact jGetAttr_error _ _ _ _ hi
        · split at he'
          · cases he'
            simp [NotFormatError]
          · rcases hc : jGetAttr idf "client_id" .jnull with ec | cidv <;>
              rw [hc] at he' <;> simp only at he'
            · cases he'
              exact jGetAttr_error _ _ _ _ hc
            · rcases hd : jGetAttr idf "display_name" .jnull with ed | dnv <;>
                rw [hd] at he' <;> simp only at he'
              · cases he'
                exact jGetAttr_error _ _ _ _ hd
              · split at he'
                · cases he'
                  simp [NotFormatError]
                · split at he'
                  · rcases dnv <;> simp only at he' <;> cases he' <;>
                      simp [NotFormatError]
                  · cases he'

/-- One client-loop iteration never raises the format `ValueError`. -/
theorem buildIndicesClient_error (cid client : JVal) (st : LoaderState)
    (e : PyErr) (st' : LoaderState)
    (h : buildIndicesClient cid client st = .error (e, st')) :
    NotFormatError e := by
  unfold buildIndicesClient at h
  split at h
  · cases h
    exact jGetAttr_error _ _ _ _ (by assumption)
  · split at h
    · cases h
      exact indexEmails_error _ _ _ _ _ (by assumption)
    · split at h
      · cases h
        exact indexName_error _ _ _ _ _ (by assumption)
      · exact indexPlatforms_error _ _ _ _ _ h

/-- `build_indices` never raises the format `ValueError`. -/
theorem build_indices_error (st : LoaderState) (e : PyErr)
    (st' : LoaderState) (h : build_indices st = .error (e, st')) :
    NotFormatError e := by
  unfold build_indices at h
  split at h
  · cases h
  · split at h
    · cases h
    · refine foldl_except_inv _ (fun p => NotFormatError p.1)
        (fun e a => rfl) ?_ _ _ (by intro e' he'; cases he') _ h
      intro st a e' he'
      exact buildIndicesClient_error _ _ _ _ _ he'

/-- C3 counterexample: the snapshot `{"CL1": "garbage"}` is not a flat
id-to-record mapping (its value is a bare string), so by the claim the
load must fail with the format error and publish nothing; the code
instead accepts the dict, publishes the cache, resets the indices, and
then crashes with `AttributeError` during the index build — a different
error raised after a partial registry was published. -/
theorem c3_load_counterexample :
    load_client_map dataGarbage {} = .error (.attributeError, garbageState) ∧
    NotFormatError .attributeError ∧
    garbageState.client_cache ≠ none := by
  exact ⟨rfl, fun msg h => PyErr.noConfusion h, by simp [garbageState]⟩

/-- C3 amended: on a pristine loader, the format `ValueError` is raised
exactly for a parsed snapshot that is not a dict at all (with no state
published); a dict is always accepted as envelope or flat mapping, and
any failure during its processing is a different exception. -/
theorem c3_format_error_iff_non_dict (data : JVal) :
    ((¬ ∃ fs, data = JVal.jobj fs) →
      load_client_map data {} =
        .error (.valueError "Invalid client registry format", {})) ∧
    ((∃ fs, data = JVal.jobj fs) → ∀ e st,
      load_client_map data {} = .error (e, st) → NotFormatError e) := by
  constructor
  · intro hne
    cases data <;> first
      | rfl
      | exact absurd ⟨_, rfl⟩ hne
  · rintro ⟨fs, rfl⟩ e st h
    unfold load_client_map at h
    rw [if_neg (by simp)] at h
    dsimp only at h
    split at h
    · rcases hed : buildCacheEnvelope ((fs.lookup "clients").getD .jnull)
        with ee | cache <;> rw [hed] at h
      · cases h
        exact buildCacheEnvelope_error _ _ hed
      · exact build_indices_error _ _ _ h
    · exact build_indices_error _ _ _ h

/-- C3 witness: the amended characterization applied to a non-dict
snapshot (a bare JSON array) and to the dict `{"CL1": "garbage"}`. -/
theorem c3_format_error_iff_non_dict_witness :
    load_client_map (.jarr []) {} =
      .error (.valueError "Invalid client registry format", {}) ∧
    NotFormatError .attributeError :=
  ⟨(c3_format_error_iff_non_dict (.jarr [])).1 (by rintro ⟨fs, h⟩; cases h),
   (c3_format_error_iff_non_dict dataGarbage).2 ⟨_, rfl⟩ _ _
     c3_load_counterexample.1⟩

/-! ## Post-review propagation lemmas (C8) -/

/-- Unfolding the first pass over one more trailing row. -/
theorem post_review_phase1_append (th : Thresholds) (reg : Registry)
    (rows : List PostReviewRow) (row : PostReviewRow) :
    post_review_phase1 th reg (rows ++ [row]) =
      (if row.previously_matched then
        ((post_review_phase1 th reg rows).1 ++
          [{ transaction_id := row.tx.transaction_id,
             client_caura_id := some "PREVIOUSLY_MATCHED",
             confidence_score := 1,
             match_method := "previously_matched",
             match_details := [], is_matched := true,
             requires_review := false }], (post_review_phase1 th reg rows).2)
      else
        ((post_review_phase1 th reg rows).1 ++
          [match_by_extracted_pii th reg row.tx row.pii],
         if (match_by_extracted_pii th reg row.tx row.pii).is_matched ∧
             (match_by_extracted_pii th reg row.tx row.pii).client_caura_id
               ≠ some "PREVIOUSLY_MATCHED" ∧
             truthy row.tx.email then
           dictInsert (post_review_phase1 th reg rows).2
             (row.tx.email.getD "")
             ⟨(match_by_extracted_pii th reg row.tx row.pii).client_caura_id,
              (match_by_extracted_pii th reg row.tx row.pii).match_method,
              (match_by_extracted_pii th reg row.tx row.pii).match_details⟩
         else (post_review_phase1 th reg rows).2)) := by
  unfold post_review_phase1
  rw [List.foldl_append]
  rfl

/-- The first pass yields exactly one result per input row. -/
theorem post_review_phase1_length (th : Thresholds) (reg : Registry)
    (rows : List PostReviewRow) :
    (post_review_phase1 th reg rows).1.length = rows.length := by
  induction rows using List.reverseRecOn with
  | nil => rfl
  | append_singleton rows row ih =>
    rw [post_review_phase1_append]
    split <;> simp [ih]

/-- `dictGet?` after `dictInsert`: the inserted key reads back the new
value, other keys are untouched. -/
theorem dictGet?_dictInsert {α : Type} (d : List (String × α))
    (k : String) (v : α) (k' : String) :
    dictGet? (dictInsert d k v) k' =
      if k' = k then some v else dictGet? d k' := by
  induction d with
  | nil =>
    simp only [dictInsert, dictGet?]
    by_cases h : k' = k
    · rw [if_pos h.symm, if_pos h]
    · rw [if_neg (fun hh => h hh.symm), if_neg h]
  | cons p rest ih =>
    simp only [dictInsert]
    by_cases hp : p.1 = k
    · rw [if_pos hp]
      simp only [dictGet?]
      by_cases h : k' = k
      · rw [if_pos (hp.trans h.symm), if_pos h]
      · rw [if_neg (fun hh => h (hp.symm.trans hh).symm), if_neg h,
          if_neg (fun hh => h (hp.symm.trans hh).symm)]
    · rw [if_neg hp]
      simp only [dictGet?, ih]
      by_cases hq : p.1 = k'
      · rw [if_pos hq, if_neg (fun hh : k' = k => hp (hq.trans hh)), if_pos hq]
      · rw [if_neg hq]
        by_cases h : k' = k
        · rw [if_pos h, if_pos h]
        · rw [if_neg h, if_neg h, if_neg hq]

/-- A truthy optional string is a nonempty `some`. -/
theorem truthy_eq_some (o : Option String) (h : truthy o = true) :
    ∃ s, o = some s ∧ s ≠ "" ∧ o.getD "" = s := by
  cases o with
  | none => cases h
  | some s => exact ⟨s, rfl, by simpa [truthy] using h, rfl⟩

/-- Every mapping discovered by the first pass originates from a row the
pass resolved through PII: the row carries that email, and the mapping
stores that row's client and method. -/
theorem post_review_phase1_provenance (th : Thresholds) (reg : Registry)
    (rows : List PostReviewRow) (e : String) (m : EmailMapEntry)
    (hm : dictGet? (post_review_phase1 th reg rows).2 e = some m) :
    ∃ (j : Nat) (row : PostReviewRow) (r : MatchResult),
      rows[j]? = some row ∧
      (post_review_phase1 th reg rows).1[j]? = some r ∧
      r.is_matched = true ∧ row.tx.email = some e ∧
      m.client_id = r.client_caura_id ∧ m.method = r.match_method := by
  induction rows using List.reverseRecOn with
  | nil => cases hm
  | append_singleton rows row ih =>
    rw [post_review_phase1_append] at hm ⊢
    by_cases hprev : row.previously_matched
    · rw [if_pos hprev] at hm ⊢
      obtain ⟨j, row', r, h1, h2, h3, h4, h5, h6⟩ := ih hm
      have hj : j < rows.length := by
        rcases List.getElem?_eq_some_iff.1 h1 with ⟨hlt, _⟩
        exact hlt
      have hjr : j < (post_review_phase1 th reg rows).1.length := by
        rw [post_review_phase1_length]
        exact hj
      exact ⟨j, row', r, by rw [List.getElem?_append_left hj]; exact h1,
        by rw [List.getElem?_append_left hjr]; exact h2, h3, h4, h5, h6⟩
    · rw [if_neg hprev] at hm ⊢
      split at hm
      · rw [dictGet?_dictInsert] at hm
        by_cases he : e = row.tx.email.getD ""
        · rw [if_pos he] at hm
          rcases hm with ⟨⟩
          rename_i hcond
          obtain ⟨hmt, _, htr⟩ := hcond
          obtain ⟨s, hes, _, hgd⟩ := truthy_eq_some _ htr
          refine ⟨rows.length, row, match_by_extracted_pii th reg row.tx row.pii,
            List.getElem?_concat_length _ _, ?_, hmt, ?_, rfl, rfl⟩
          · rw [show rows.length = (post_review_phase1 th reg rows).1.length
                from (post_review_phase1_length th reg rows).symm]
            exact List.getElem?_concat_length _ _
          · rw [hes, he, hgd]
        · rw [if_neg he] at hm
          obtain ⟨j, row', r, h1, h2, h3, h4, h5, h6⟩ := ih hm
          have hj : j < rows.length := by
            rcases List.getElem?_eq_some_iff.1 h1 with ⟨hlt, _⟩
            exact hlt
          have hjr : j < (post_review_phase1 th reg rows).1.length := by
            rw [post_review_phase1_length]
            exact hj
          exact ⟨j, row', r, by rw [List.getElem?_append_left hj]; exact h1,
            by rw [List.getElem?_append_left hjr]; exact h2, h3, h4, h5, h6⟩
      · obtain ⟨j, row', r, h1, h2, h3, h4, h5, h6⟩ := ih hm
        have hj : j < rows.length := by
          rcases List.getElem?_eq_some_iff.1 h1 with ⟨hlt, _⟩
          exact hlt
        have hjr : j < (post_review_phase1 th reg rows).1.length := by
          rw [post_review_phase1_length]
          exact hj
        exact ⟨j, row', r, by rw [List.getElem?_append_left hj]; exact h1,
          by rw [List.getElem?_append_left hjr]; exact h2, h3, h4, h5, h6⟩

/-- C8: after the first pass has processed the whole batch, every
still-unresolved row whose email was mapped by a PII-resolved row of the
same batch is replaced by that mapping's client at fixed confidence
`0.90`, with method `"email_propagated_from_" ++ <original method>` and
no review; and every mapping consumed this way was discovered in the
completed first phase (it records the client and method of a row that
the first pass matched and that carries that very email). -/
theorem c8_propagation (th : Thresholds) (reg : Registry)
    (rows : List PostReviewRow) :
    (∀ (i : Nat) (r1 : MatchResult) (row : PostReviewRow) (e : String)
        (m : EmailMapEntry),
      rows[i]? = some row →
      (post_review_phase1 th reg rows).1[i]? = some r1 →
      r1.is_matched = false →
      row.tx.email = some e → e ≠ "" →
      dictGet? (post_review_phase1 th reg rows).2 e = some m →
      (post_review_batch th reg rows)[i]? = some
        { transaction_id := row.tx.transaction_id,
          client_caura_id := m.client_id, confidence_score := 90 / 100,
          match_method := "email_propagated_from_" ++ m.method,
          match_details :=
            [("propagated_from_email", .s e),
             ("original_match_method", .s m.method),
             ("original_details", .m m.details)],
          is_matched := true, requires_review := false }) ∧
    (∀ (e : String) (m : EmailMapEntry),
      dictGet? (post_review_phase1 th reg rows).2 e = some m →
      ∃ (j : Nat) (row : PostReviewRow) (r : MatchResult),
        rows[j]? = some row ∧
        (post_review_phase1 th reg rows).1[j]? = some r ∧
        r.is_matched = true ∧ row.tx.email = some e ∧
        m.client_id = r.client_caura_id ∧ m.method = r.match_method) := by
  constructor
  · intro i r1 row e m hrow hr1 hunm he hene hmap
    unfold post_review_batch post_review_phase2
    rw [List.getElem?_map,
      show ((post_review_phase1 th reg rows).1.zip rows)[i]? = some (r1, row)
        from List.getElem?_zip_eq_some.2 ⟨hr1, hrow⟩]
    have htr : truthy row.tx.email = true := by
      rw [he]
      simpa [truthy] using hene
    rw [Option.map_some']
    have hgd : row.tx.email.getD "" = e := by rw [he]; rfl
    rw [if_neg (by simp [hunm, htr]), hgd, hmap]
  · exact post_review_phase1_provenance th reg rows

set_option maxRecDepth 400000 in
/-- C8 witness: the spec's propagation scenario — `T1` resolves to `C3`
by phone and carries `c3@y.com`; the unresolved `T2` with the same email
becomes an `email_propagated_from_extracted_phone` match at 0.90 with no
review. -/
theorem c8_propagation_witness :
    (post_review_batch {} regPhone rowsPropagation)[1]? = some
      { transaction_id := "T2", client_caura_id := some "C3",
        confidence_score := 90 / 100,
        match_method := "email_propagated_from_extracted_phone",
        match_details :=
          [("propagated_from_email", .s "c3@y.com"),
           ("original_match_method", .s "extracted_phone"),
           ("original_details",
            .m [("matched_phone", DetailVal.s "0412 345 678")])],
        is_matched := true, requires_review := false } :=
  (c8_propagation {} regPhone rowsPropagation).1 1
    { transaction_id := "T2", client_caura_id := none,
      confidence_score := 0, match_method := "no_match_post_review",
      match_details := [], is_matched := false, requires_review := true }
    { tx := { transaction_id := "T2", description := "inv 2",
              email := some "c3@y.com", platform := "stripe" },
      pii := {}, previously_matched := false }
    "c3@y.com"
    ⟨some "C3", "extracted_phone", [("matched_phone", .s "0412 345 678")]⟩
    rfl (by with_unfolding_all rfl) rfl rfl (by decide)
    (by with_unfolding_all rfl)

/-! ## Address-search selection lemmas (C5) -/

theorem maxScores_cons (c : String × ℚ) (l : List (String × ℚ)) :
    maxScores (c :: l) =
      some ((maxScores l).elim c.2 (fun m => max c.2 m)) := by
  cases h : maxScores l <;> simp [maxScores, h]

theorem maxScores_eq_none_iff (l : List (String × ℚ)) :
    maxScores l = none ↔ l = [] := by
  cases l with
  | nil => simp [maxScores]
  | cons c rest => rw [maxScores_cons]; simp

theorem maxScores_mem (l : List (String × ℚ)) :
    ∀ M, maxScores l = some M → ∃ c, c ∈ l ∧ c.2 = M := by
  induction l with
  | nil => intro M h; cases h
  | cons c rest ih =>
    intro M h
    rw [maxScores_cons] at h
    cases hr : maxScores rest with
    | none =>
      rw [hr] at h
      simp only [Option.elim] at h
      cases h
      exact ⟨c, by simp, rfl⟩
    | some m =>
      rw [hr] at h
      simp only [Option.elim] at h
      cases h
      rcases le_total c.2 m with hle | hle
      · obtain ⟨d, hd, hdm⟩ := ih m hr
        exact ⟨d, by simp [hd], by rw [hdm, max_eq_right hle]⟩
      · exact ⟨c, by simp, (max_eq_left hle).symm⟩

theorem maxScores_ge (l : List (String × ℚ)) :
    ∀ M c, maxScores l = some M → c ∈ l → c.2 ≤ M := by
  induction l with
  | nil => intro M c _ hc; cases hc
  | cons d rest ih =>
    intro M c h hc
    rw [maxScores_cons] at h
    cases hr : maxScores rest with
    | none =>
      rw [hr] at h
      simp only [Option.elim] at h
      cases h
      rcases List.mem_cons.1 hc with rfl | hc'
      · exact le_refl _
      · rw [(maxScores_eq_none_iff rest).1 hr] at hc'
        cases hc'
    | some m =>
      rw [hr] at h
      simp only [Option.elim] at h
      cases h
      rcases List.mem_cons.1 hc with rfl | hc'
      · exact le_max_left _ _
      · exact le_trans (ih m c hr hc') (le_max_right _ _)

/-- `find?` over a filtered list is unchanged when the filters agree on
every element the search predicate accepts. -/
theorem find?_filter_congr {α : Type} (p q₁ q₂ : α → Bool)
    (hpq : ∀ x, p x = true → q₁ x = q₂ x) :
    ∀ l : List α, (l.filter q₁).find? p = (l.filter q₂).find? p := by
  intro l
  induction l with
  | nil => rfl
  | cons x rest ih =>
    simp only [List.filter_cons]
    by_cases hp : p x = true
    · rw [hpq x hp]
      by_cases h2 : q₂ x = true
      · simp only [if_pos h2]
        rw [List.find?_cons_of_pos _ hp, List.find?_cons_of_pos _ hp]
      · simp only [if_neg h2]
        exact ih
    · by_cases h1 : q₁ x = true <;> by_cases h2 : q₂ x = true
      · rw [if_pos h1, if_pos h2, List.find?_cons_of_neg _ hp,
          List.find?_cons_of_neg _ hp]
        exact ih
      · rw [if_pos h1, if_neg h2, List.find?_cons_of_neg _ hp]
        exact ih
      · rw [if_neg h1, if_pos h2, List.find?_cons_of_neg _ hp]
        exact ih
      · rw [if_neg h1, if_neg h2]
        exact ih

theorem pickAbove_none_aux (minScore cur : ℚ) (cands : List (String × ℚ))
    (h : maxScores (cands.filter
      (fun c => decide (minScore ≤ c.2) && decide (cur < c.2))) = none) :
    pickAbove minScore cur cands = none := by
  simp only [pickAbove, h]

theorem pickAbove_some_aux (minScore cur : ℚ) (cands : List (String × ℚ))
    (m : ℚ) (h : maxScores (cands.filter
      (fun c => decide (minScore ≤ c.2) && decide (cur < c.2))) = some m) :
    pickAbove minScore cur cands =
      (cands.filter
        (fun c => decide (minScore ≤ c.2) && decide (cur < c.2))).find?
          (fun c => decide (c.2 = m)) := by
  simp only [pickAbove, h]

theorem pickAbove_eq_none_iff (minScore cur : ℚ) (cands : List (String × ℚ)) :
    pickAbove minScore cur cands = none ↔
      cands.filter (fun c => decide (minScore ≤ c.2) && decide (cur < c.2))
        = [] := by
  cases hM : maxScores (cands.filter
      (fun c => decide (minScore ≤ c.2) && decide (cur < c.2))) with
  | none =>
    rw [pickAbove_none_aux _ _ _ hM, (maxScores_eq_none_iff _).1 hM]
    simp
  | some M =>
    rw [pickAbove_some_aux _ _ _ _ hM]
    constructor
    · intro h
      obtain ⟨c, hc, hcM⟩ := maxScores_mem _ M hM
      have hs : ((cands.filter
          (fun c => decide (minScore ≤ c.2) && decide (cur < c.2))).find?
            (fun c => decide (c.2 = M))).isSome :=
        List.find?_isSome.2 ⟨c, hc, by simp [hcM]⟩
      rw [h] at hs
      simp at hs
    · intro h
      simp [h]

theorem pickAbove_eq_some (minScore cur : ℚ) (cands : List (String × ℚ))
    (d : String × ℚ) (h : pickAbove minScore cur cands = some d) :
    d ∈ cands.filter (fun c => decide (minScore ≤ c.2) && decide (cur < c.2))
      ∧ maxScores (cands.filter
          (fun c => decide (minScore ≤ c.2) && decide (cur < c.2)))
        = some d.2 := by
  cases hM : maxScores (cands.filter
      (fun c => decide (minScore ≤ c.2) && decide (cur < c.2))) with
  | none =>
    rw [pickAbove_none_aux _ _ _ hM] at h
    cases h
  | some M =>
    rw [pickAbove_some_aux _ _ _ _ hM] at h
    have hmem := List.mem_of_find?_eq_some h
    have hdM : d.2 = M := by simpa using List.find?_some h
    exact ⟨hmem, by rw [hdM]⟩

/-- The source's strict-improvement scan realizes the specification's
selection rule relative to the running best's score. -/
theorem scanCands_eq_pickAbove (minScore : ℚ) :
    ∀ (cands : List (String × ℚ)) (st : Option (String × ℚ)),
      scanCands minScore cands st =
        (pickAbove minScore (bestScore2 st) cands).elim st some := by
  intro cands
  induction cands with
  | nil => intro st; simp [scanCands, pickAbove, maxScores]
  | cons c rest ih =>
    intro st
    unfold scanCands
    by_cases hcond : bestScore2 st < c.2 ∧ minScore ≤ c.2
    · rw [if_pos hcond, ih (some c)]
      have hfc : (fun x : String × ℚ =>
          decide (minScore ≤ x.2) && decide (bestScore2 st < x.2)) c = true := by
        simp [hcond.1, hcond.2]
      have hfilter : (c :: rest).filter
          (fun x => decide (minScore ≤ x.2) && decide (bestScore2 st < x.2))
          = c :: rest.filter
              (fun x => decide (minScore ≤ x.2) && decide (bestScore2 st < x.2)) := by
        rw [List.filter_cons, if_pos hfc]
      cases hq2 : pickAbove minScore (bestScore2 (some c)) rest with
      | none =>
        have hempty := (pickAbove_eq_none_iff _ _ _).1 hq2
        simp only [bestScore2] at hempty
        have hM : maxScores ((c :: rest).filter
            (fun x => decide (minScore ≤ x.2) && decide (bestScore2 st < x.2)))
            = some c.2 := by
          rw [hfilter, maxScores_cons]
          cases hqr : maxScores (rest.filter
              (fun x => decide (minScore ≤ x.2) && decide (bestScore2 st < x.2))) with
          | none => rfl
          | some m =>
            obtain ⟨x, hx, hxm⟩ := maxScores_mem _ m hqr
            have hxr := List.mem_filter.1 hx
            have hxc : x.2 ≤ c.2 := by
              by_contra hgt
              push_neg at hgt
              have hxin : x ∈ rest.filter
                  (fun y => decide (minScore ≤ y.2) && decide (c.2 < y.2)) :=
                List.mem_filter.2 ⟨hxr.1, by
                  have hx2 := hxr.2
                  simp only [Bool.and_eq_true, decide_eq_true_eq] at hx2 ⊢
                  exact ⟨hx2.1, hgt⟩⟩
              rw [hempty] at hxin
              cases hxin
            simp only [Option.elim]
            rw [max_eq_left (hxm ▸ hxc)]
        rw [pickAbove_some_aux _ _ _ _ hM, hfilter,
          List.find?_cons_of_pos _ (by simp)]
        rfl
      | some d =>
        obtain ⟨hdmem, hdmax⟩ := pickAbove_eq_some _ _ _ _ hq2
        simp only [bestScore2] at hdmem hdmax
        have hdr := List.mem_filter.1 hdmem
        have hdprop := hdr.2
        simp only [Bool.and_eq_true, decide_eq_true_eq] at hdprop
        have hdin : d ∈ rest.filter
            (fun x => decide (minScore ≤ x.2) && decide (bestScore2 st < x.2)) :=
          List.mem_filter.2 ⟨hdr.1, by
            simp only [Bool.and_eq_true, decide_eq_true_eq]
            exact ⟨hdprop.1, lt_trans hcond.1 hdprop.2⟩⟩
        have hqrne : rest.filter
            (fun x => decide (minScore ≤ x.2) && decide (bestScore2 st < x.2))
            ≠ [] := fun hh => by rw [hh] at hdin; cases hdin
        cases hqr : maxScores (rest.filter
            (fun x => decide (minScore ≤ x.2) && decide (bestScore2 st < x.2))) with
        | none => exact absurd ((maxScores_eq_none_iff _).1 hqr) hqrne
        | some m =>
          have hm_eq : m = d.2 := by
            have h1 : d.2 ≤ m := maxScores_ge _ m d hqr hdin
            obtain ⟨x, hx, hxm⟩ := maxScores_mem _ m hqr
            have hxr := List.mem_filter.1 hx
            have hxprop := hxr.2
            simp only [Bool.and_eq_true, decide_eq_true_eq] at hxprop
            have h2 : m ≤ d.2 := by
              have hxq2 : x ∈ rest.filter
                  (fun y => decide (minScore ≤ y.2) && decide (c.2 < y.2)) :=
                List.mem_filter.2 ⟨hxr.1, by
                  simp only [Bool.and_eq_true, decide_eq_true_eq]
                  refine ⟨hxprop.1, ?_⟩
                  calc c.2 < d.2 := hdprop.2
                    _ ≤ m := h1
                    _ = x.2 := hxm.symm⟩
              exact hxm ▸ maxScores_ge _ d.2 x hdmax hxq2
            exact le_antisymm h2 h1
          have hM : maxScores ((c :: rest).filter
              (fun x => decide (minScore ≤ x.2) && decide (bestScore2 st < x.2)))
              = some d.2 := by
            rw [hfilter, maxScores_cons, hqr]
            simp only [Option.elim]
            rw [hm_eq, max_eq_right (le_of_lt hdprop.2)]
          have hfind : (rest.filter
              (fun y => decide (minScore ≤ y.2) && decide (c.2 < y.2))).find?
                (fun y => decide (y.2 = d.2)) = some d := by
            have h5 := hq2
            rw [pickAbove_some_aux minScore (bestScore2 (some c)) rest d.2
              hdmax] at h5
            exact h5
          rw [pickAbove_some_aux _ _ _ _ hM, hfilter,
            List.find?_cons_of_neg _ (by simp [ne_of_lt hdprop.2]),
            find?_filter_congr (fun y => decide (y.2 = d.2))
              (fun x => decide (minScore ≤ x.2) && decide (bestScore2 st < x.2))
              (fun x => decide (minScore ≤ x.2) && decide (c.2 < x.2))
              (by
                intro x hx
                simp only [decide_eq_true_eq] at hx
                simp only [hx]
                rw [show (decide (bestScore2 st < d.2)) = true by
                      simp [lt_trans hcond.1 hdprop.2],
                    show (decide (c.2 < d.2)) = true by simp [hdprop.2]])
              rest,
            hfind]
          rfl
    · rw [if_neg hcond, ih st]
      have hfc : (fun x : String × ℚ =>
          decide (minScore ≤ x.2) && decide (bestScore2 st < x.2)) c = false := by
        simp only [Bool.and_eq_true, decide_eq_true_eq, Bool.and_eq_false_iff,
          decide_eq_false_iff_not]
        by_cases h1 : minScore ≤ c.2
        · exact Or.inr (fun h2 => hcond ⟨h2, h1⟩)
        · exact Or.inl h1
      have hfe : (c :: rest).filter
          (fun x => decide (minScore ≤ x.2) && decide (bestScore2 st < x.2))
          = rest.filter
              (fun x => decide (minScore ≤ x.2) && decide (bestScore2 st < x.2)) := by
        rw [List.filter_cons, if_neg (by simp [hfc])]
      have hpe : pickAbove minScore (bestScore2 st) (c :: rest)
          = pickAbove minScore (bestScore2 st) rest := by
        unfold pickAbove
        rw [hfe]
      rw [hpe]

theorem scanCands_cons (min_score : ℚ) (c : String × ℚ) (l : List (String × ℚ))
    (st : Option (String × ℚ)) :
    scanCands min_score (c :: l) st
      = if bestScore2 st < c.2 ∧ min_score ≤ c.2 then
          scanCands min_score l (some c)
        else scanCands min_score l st := rfl

theorem bestScoreOf_map (st : Option (String × ℚ × List (String × DetailVal))) :
    bestScore2 (st.map (fun t => (t.1, t.2.1))) = bestScoreOf st := by
  cases st <;> rfl

theorem specCandList_cons_none (a n : String) (p : String × ClientRecord)
    (rest : Registry) (h : specCandScore a n p.2 = none) :
    specCandList (p :: rest) a n = specCandList rest a n := by
  simp only [specCandList, List.filterMap_cons, h, Option.map_none']

theorem specCandList_cons_some (a n : String) (p : String × ClientRecord)
    (rest : Registry) (sc : ℚ) (h : specCandScore a n p.2 = some sc) :
    specCandList (p :: rest) a n = (p.1, sc) :: specCandList rest a n := by
  simp only [specCandList, List.filterMap_cons, h, Option.map_some']

theorem specAddressSearchPos_eq_pickAbove (reg : Registry) (addr : String)
    (minScore : ℚ) (h : ¬(addr = "" ∨ (pyStripS addr).length < 5)) :
    specAddressSearchPos reg addr minScore
      = pickAbove minScore 0 (specCandList reg addr (normalizeAddress addr)) := by
  simp only [specAddressSearchPos, pickAbove, if_neg h]

/-- Projecting the details-carrying scan of the source onto bare
`(caura_id, score)` pairs yields the abstract strict-improvement scan
over the candidate list. -/
theorem addrFold_proj (a n : String) (min_score : ℚ) :
    ∀ (reg : Registry) (st : Option (String × ℚ × List (String × DetailVal))),
      (reg.foldl (addrStep a n min_score) st).map (fun t => (t.1, t.2.1))
        = scanCands min_score (specCandList reg a n)
            (st.map (fun t => (t.1, t.2.1))) := by
  intro reg
  induction reg with
  | nil => intro st; rfl
  | cons p rest ih =>
    intro st
    rw [List.foldl_cons]
    cases hloc : p.2.location with
    | none =>
      have hstep : addrStep a n min_score st p = st := by
        simp only [addrStep, hloc]
      have hsc : specCandScore a n p.2 = none := by
        simp only [specCandScore, hloc]
      rw [hstep, specCandList_cons_none a n p rest hsc]
      exact ih st
    | some loc =>
      by_cases hparts : clientAddrParts loc = []
      · have hstep : addrStep a n min_score st p = st := by
          simp only [addrStep, hloc, if_pos hparts]
        have hsc : specCandScore a n p.2 = none := by
          simp only [specCandScore, hloc, if_pos hparts]
        rw [hstep, specCandList_cons_none a n p rest hsc]
        exact ih st
      · have hsc : specCandScore a n p.2
            = some (qListMax ((clientAddrPairs a n loc).map (fun q => q.2))) := by
          simp only [specCandScore, hloc, if_neg hparts]
        rw [specCandList_cons_some a n p rest _ hsc]
        by_cases hc : bestScoreOf st
              < qListMax ((clientAddrPairs a n loc).map (fun q => q.2))
            ∧ min_score ≤ qListMax ((clientAddrPairs a n loc).map (fun q => q.2))
        · have hstep : (addrStep a n min_score st p).map (fun t => (t.1, t.2.1))
              = some (p.1,
                  qListMax ((clientAddrPairs a n loc).map (fun q => q.2))) := by
            simp only [addrStep, hloc, if_neg hparts]
            rw [if_pos hc]
            rfl
          rw [ih (addrStep a n min_score st p), hstep, scanCands_cons,
            bestScoreOf_map, if_pos hc]
        · have hstep : (addrStep a n min_score st p).map (fun t => (t.1, t.2.1))
              = st.map (fun t => (t.1, t.2.1)) := by
            simp only [addrStep, hloc, if_neg hparts]
            rw [if_neg hc]
          rw [ih (addrStep a n min_score st p), hstep, scanCands_cons,
            bestScoreOf_map, if_neg hc]

/-- C5: **corrected**.  Address search returns `none` for falsy input or
input shorter than 5 characters after stripping; otherwise each
candidate's score is the maximum of its applicable strategy scores and
the winner is the candidate with the single highest score that is at
least the minimum, first-seen on ties — but, contrary to the claim as
stated, only strictly positive scores qualify: the source's running
best starts at `0.0` and only strict improvements are kept, so a
zero-scoring candidate is never returned even when `min_score` is `0`.
(The hypothesis reflects registries with non-empty caura_ids; Python's
final `if best_match:` would also drop an empty-string id as falsy.) -/
theorem c5_address_search_selection (reg : Registry) (addr : String)
    (minScore : ℚ) (hids : ∀ p ∈ reg, p.1 ≠ "") :
    (find_client_by_street_address reg addr minScore).map
        (fun t => (t.1, t.2.1))
      = specAddressSearchPos reg addr minScore := by
  by_cases hshort : addr = "" ∨ (pyStripS addr).length < 5
  · simp only [find_client_by_street_address, specAddressSearchPos,
      if_pos hshort, Option.map_none']
  · rw [specAddressSearchPos_eq_pickAbove reg addr minScore hshort]
    have hmain := addrFold_proj addr (normalizeAddress addr) minScore reg none
    simp only [Option.map_none'] at hmain
    rw [scanCands_eq_pickAbove minScore
      (specCandList reg addr (normalizeAddress addr)) none] at hmain
    have hb : bestScore2 none = (0 : ℚ) := rfl
    rw [hb] at hmain
    simp only [find_client_by_street_address, if_neg hshort]
    cases hF : reg.foldl
        (addrStep addr (normalizeAddress addr) minScore) none with
    | none =>
      rw [hF] at hmain
      simp only [Option.map_none'] at hmain
      cases hPA : pickAbove minScore 0
          (specCandList reg addr (normalizeAddress addr)) with
      | none => rfl
      | some d =>
        rw [hPA] at hmain
        simp at hmain
    | some t =>
      obtain ⟨cid, sc, det⟩ := t
      rw [hF] at hmain
      simp only [Option.map_some'] at hmain
      cases hPA : pickAbove minScore 0
          (specCandList reg addr (normalizeAddress addr)) with
      | none =>
        rw [hPA] at hmain
        simp at hmain
      | some d =>
        rw [hPA] at hmain
        simp only [Option.elim] at hmain
        have hd : (cid, sc) = d := by simpa using hmain
        obtain ⟨hdmem, -⟩ := pickAbove_eq_some _ _ _ _ hPA
        have hdCL : d ∈ specCandList reg addr (normalizeAddress addr) :=
          (List.mem_filter.1 hdmem).1
        simp only [specCandList] at hdCL
        obtain ⟨p, hp, hpd⟩ := List.mem_filterMap.1 hdCL
        have hd1 : d.1 = p.1 := by
          cases hsc : specCandScore addr (normalizeAddress addr) p.2 with
          | none => rw [hsc] at hpd; cases hpd
          | some s =>
            rw [hsc] at hpd
            simp only [Option.map_some'] at hpd
            rw [← Option.some.inj hpd]
        have hcid : ¬ cid = "" := by
          have h1 : cid = p.1 := by rw [← hd] at hd1; exact hd1
          rw [h1]
          exact hids p hp
        show Option.map (fun t => (t.1, t.2.1))
            (if cid = "" then none else some (cid, sc, det)) = some d
        rw [if_neg hcid]
        exact congrArg some hd

set_option maxRecDepth 400000 in
/-- C5 counterexample to the claim as stated: with `min_score = 0`, the
client at suburb `"park"` scores exactly `0` against the input
`"zzzzz"` — it meets the stated `minScore ≤ score` rule, so the
claim-side selection returns it, yet the source keeps only strict
improvements over a best starting at `0.0` and returns `None`. -/
theorem c5_zero_score_counterexample :
    find_client_by_street_address regPark "zzzzz" 0 = none
      ∧ specAddressSearch regPark "zzzzz" 0 = some ("CL1", 0) := by
  constructor
  · with_unfolding_all rfl
  · with_unfolding_all rfl

set_option maxRecDepth 400000 in
/-- C5 witness: the amended selection rule agrees with the source on a
registry whose client is found by suburb containment at score `0.85`. -/
theorem c5_address_search_selection_witness :
    (∀ p ∈ regParkville, p.1 ≠ "")
      ∧ (find_client_by_street_address regParkville "pay parkville"
            (17 / 20)).map (fun t => (t.1, t.2.1))
          = specAddressSearchPos regParkville "pay parkville" (17 / 20) := by
  have hids : ∀ p ∈ regParkville, p.1 ≠ "" := by
    intro p hp
    simp only [regParkville] at hp
    cases hp with
    | head => decide
    | tail b h => cases h
  exact ⟨hids,
    c5_address_search_selection regParkville "pay parkville" (17 / 20) hids⟩


/-! ## Lemmas towards C6: idempotence of the address normalizer -/

theorem collapseWsAux_cons_space_true (a : Char) (cs : List Char)
    (ha : isPySpace a = true) :
    collapseWsAux true (a :: cs) = collapseWsAux true cs := by
  simp [collapseWsAux, ha]

theorem collapseWsAux_cons_space_false (a : Char) (cs : List Char)
    (ha : isPySpace a = true) :
    collapseWsAux false (a :: cs) = ' ' :: collapseWsAux true cs := by
  simp [collapseWsAux, ha]

theorem collapseWsAux_cons_nonspace (flag : Bool) (a : Char) (cs : List Char)
    (ha : isPySpace a = false) :
    collapseWsAux flag (a :: cs) = a :: collapseWsAux false cs := by
  simp [collapseWsAux, ha]

theorem wordSubAux_cons_word (T : List (List Char × List Char))
    (run : List Char) (a : Char) (cs : List Char) (ha : isWordChar a = true) :
    wordSubAux T run (a :: cs) = wordSubAux T (a :: run) cs := by
  simp [wordSubAux, ha]

theorem wordSubAux_cons_nonword (T : List (List Char × List Char))
    (run : List Char) (a : Char) (cs : List Char) (ha : isWordChar a = false) :
    wordSubAux T run (a :: cs) = flushRun T run ++ a :: wordSubAux T [] cs := by
  simp [wordSubAux, ha]

theorem runsOfAux_cons_word (run : List Char) (a : Char) (cs : List Char)
    (ha : isWordChar a = true) :
    runsOfAux run (a :: cs) = runsOfAux (a :: run) cs := by
  simp [runsOfAux, ha]

theorem runsOfAux_cons_nonword (run : List Char) (a : Char) (cs : List Char)
    (ha : isWordChar a = false) :
    runsOfAux run (a :: cs)
      = (if run = [] then [] else [run.reverse]) ++ runsOfAux [] cs := by
  simp only [runsOfAux, ha, Bool.false_eq_true, if_false]

theorem pyLower_idem (c : Char) : pyLower (pyLower c) = pyLower c := by
  by_cases h : 'A' ≤ c ∧ c ≤ 'Z'
  · have h1 : 65 ≤ c.toNat := h.1
    have h2 : c.toNat ≤ 90 := h.2
    have e : pyLower c = Char.ofNat (c.toNat + 32) := by
      simp only [pyLower, if_pos h]
    rw [e]
    set n := c.toNat with hn
    interval_cases n <;> decide
  · have e : pyLower c = c := by simp only [pyLower, if_neg h]
    rw [e]
    exact e

theorem map_fix {α : Type} (f : α → α) (l : List α) (h : ∀ c ∈ l, f c = c) :
    l.map f = l := by
  induction l with
  | nil => rfl
  | cons c cs ih =>
    rw [List.map_cons, h c (List.mem_cons_self c cs),
      ih (fun x hx => h x (List.mem_cons_of_mem c hx))]

theorem dropWhile_idem {α : Type} (p : α → Bool) (l : List α) :
    (l.dropWhile p).dropWhile p = l.dropWhile p := by
  induction l with
  | nil => rfl
  | cons c cs ih =>
    by_cases h : p c = true
    · rw [List.dropWhile_cons_of_pos h]
      exact ih
    · rw [List.dropWhile_cons_of_neg h, List.dropWhile_cons_of_neg h]

theorem dropWhile_head_not {α : Type} (p : α → Bool) :
    ∀ (l : List α) (h : α) (t : List α), l.dropWhile p = h :: t → p h = false := by
  intro l
  induction l with
  | nil => intro h t he; cases he
  | cons c cs ih =>
    intro h t he
    by_cases hc : p c = true
    · rw [List.dropWhile_cons_of_pos hc] at he
      exact ih h t he
    · rw [List.dropWhile_cons_of_neg hc] at he
      cases he
      exact Bool.eq_false_iff.2 hc

theorem dropWhile_append_last {α : Type} (p : α → Bool) (c : α)
    (hc : p c = false) (l : List α) :
    (l ++ [c]).dropWhile p = l.dropWhile p ++ [c] := by
  induction l with
  | nil =>
    simp only [List.nil_append, List.dropWhile_nil]
    rw [List.dropWhile_cons_of_neg (by simp [hc])]
  | cons a l' ih =>
    by_cases ha : p a = true
    · rw [List.cons_append, List.dropWhile_cons_of_pos ha,
        List.dropWhile_cons_of_pos ha]
      exact ih
    · rw [List.cons_append, List.dropWhile_cons_of_neg ha,
        List.dropWhile_cons_of_neg ha, List.cons_append]

theorem pyStrip_decomp (s : List Char) :
    ∃ u w, u ++ pyStrip s ++ w = s := by
  obtain ⟨u, hu⟩ := List.dropWhile_suffix (l := s) isPySpace
  obtain ⟨v, hv⟩ :=
    List.dropWhile_suffix (l := (s.dropWhile isPySpace).reverse) isPySpace
  refine ⟨u, v.reverse, ?_⟩
  have h2 : s.dropWhile isPySpace = pyStrip s ++ v.reverse := by
    have h3 := congrArg List.reverse hv
    rw [List.reverse_append, List.reverse_reverse] at h3
    exact h3.symm
  rw [List.append_assoc, ← h2]
  exact hu

theorem mem_pyStrip {c : Char} {s : List Char} (h : c ∈ pyStrip s) : c ∈ s := by
  obtain ⟨u, w, hs⟩ := pyStrip_decomp s
  rw [← hs]
  simp [List.mem_append, h]

theorem pyStrip_idem (s : List Char) : pyStrip (pyStrip s) = pyStrip s := by
  have hA : (pyStrip s).dropWhile isPySpace = pyStrip s := by
    cases hd : s.dropWhile isPySpace with
    | nil => simp [pyStrip, hd]
    | cons h t =>
      have hh : isPySpace h = false := dropWhile_head_not _ _ _ _ hd
      have hps : pyStrip s = h :: (t.reverse.dropWhile isPySpace).reverse := by
        simp only [pyStrip, hd, List.reverse_cons]
        rw [dropWhile_append_last _ h hh, List.reverse_append]
        rfl
      rw [hps, List.dropWhile_cons_of_neg (by simp [hh])]
  have hrev : (pyStrip s).reverse
      = (s.dropWhile isPySpace).reverse.dropWhile isPySpace := by
    simp [pyStrip]
  have hB : pyStrip (pyStrip s)
      = (((pyStrip s).dropWhile isPySpace).reverse.dropWhile isPySpace).reverse :=
    rfl
  rw [hB, hA, hrev, dropWhile_idem]
  rfl

theorem applyTable_cases (T : List (List Char × List Char)) (w : List Char) :
    applyTable T w = w ∨ ∃ kv ∈ T, applyTable T w = kv.2 := by
  suffices h : ∀ (T : List (List Char × List Char)) (acc : List Char),
      T.foldl (fun acc kv => if acc = kv.1 then kv.2 else acc) acc = acc
        ∨ ∃ kv ∈ T,
            T.foldl (fun acc kv => if acc = kv.1 then kv.2 else acc) acc
              = kv.2 by
    exact h T w
  intro T
  induction T with
  | nil => intro acc; exact Or.inl rfl
  | cons kv T' ih =>
    intro acc
    rw [List.foldl_cons]
    by_cases hk : acc = kv.1
    · rw [if_pos hk]
      rcases ih kv.2 with h | ⟨kv', hkv', h⟩
      · exact Or.inr ⟨kv, List.mem_cons_self _ _, h⟩
      · exact Or.inr ⟨kv', List.mem_cons_of_mem _ hkv', h⟩
    · rw [if_neg hk]
      rcases ih acc with h | ⟨kv', hkv', h⟩
      · exact Or.inl h
      · exact Or.inr ⟨kv', List.mem_cons_of_mem _ hkv', h⟩

theorem mem_flushRun (T : List (List Char × List Char)) (run : List Char)
    (c : Char) (hc : c ∈ flushRun T run) :
    c ∈ run ∨ ∃ kv ∈ T, c ∈ kv.2 := by
  simp only [flushRun] at hc
  by_cases hr : run = []
  · rw [if_pos hr] at hc; cases hc
  · rw [if_neg hr] at hc
    rcases applyTable_cases T run.reverse with h | ⟨kv, hkv, h⟩
    · rw [h] at hc; exact Or.inl (List.mem_reverse.1 hc)
    · rw [h] at hc; exact Or.inr ⟨kv, hkv, hc⟩

theorem mem_wordSubAux (T : List (List Char × List Char)) :
    ∀ (cs run : List Char) (c : Char), c ∈ wordSubAux T run cs →
      c ∈ run ∨ c ∈ cs ∨ ∃ kv ∈ T, c ∈ kv.2 := by
  intro cs
  induction cs with
  | nil =>
    intro run c hc
    rcases mem_flushRun T run c hc with h | h
    · exact Or.inl h
    · exact Or.inr (Or.inr h)
  | cons a cs' ih =>
    intro run c hc
    by_cases ha : isWordChar a = true
    · rw [wordSubAux_cons_word T run a cs' ha] at hc
      rcases ih (a :: run) c hc with h | h | h
      · rcases List.mem_cons.1 h with rfl | h
        · exact Or.inr (Or.inl (List.mem_cons_self _ _))
        · exact Or.inl h
      · exact Or.inr (Or.inl (List.mem_cons_of_mem _ h))
      · exact Or.inr (Or.inr h)
    · rw [wordSubAux_cons_nonword T run a cs'
        (Bool.eq_false_iff.2 ha)] at hc
      rcases List.mem_append.1 hc with h | h
      · rcases mem_flushRun T run c h with h2 | h2
        · exact Or.inl h2
        · exact Or.inr (Or.inr h2)
      · rcases List.mem_cons.1 h with rfl | h
        · exact Or.inr (Or.inl (List.mem_cons_self _ _))
        · rcases ih [] c h with h3 | h3 | h3
          · cases h3
          · exact Or.inr (Or.inl (List.mem_cons_of_mem _ h3))
          · exact Or.inr (Or.inr h3)

theorem mem_wordSub (T : List (List Char × List Char)) (s : List Char)
    (c : Char) (hc : c ∈ wordSub T s) :
    c ∈ s ∨ ∃ kv ∈ T, c ∈ kv.2 := by
  rcases mem_wordSubAux T s [] c hc with h | h
  · cases h
  · exact h

theorem mem_collapseWsAux :
    ∀ (cs : List Char) (flag : Bool) (c : Char),
      c ∈ collapseWsAux flag cs → c ∈ cs ∨ c = ' ' := by
  intro cs
  induction cs with
  | nil => intro flag c hc; cases hc
  | cons a cs' ih =>
    intro flag c hc
    by_cases ha : isPySpace a = true
    · cases flag with
      | true =>
        rw [collapseWsAux_cons_space_true a cs' ha] at hc
        rcases ih true c hc with h | h
        · exact Or.inl (List.mem_cons_of_mem _ h)
        · exact Or.inr h
      | false =>
        rw [collapseWsAux_cons_space_false a cs' ha] at hc
        rcases List.mem_cons.1 hc with rfl | h
        · exact Or.inr rfl
        · rcases ih true c h with h2 | h2
          · exact Or.inl (List.mem_cons_of_mem _ h2)
          · exact Or.inr h2
    · rw [collapseWsAux_cons_nonspace flag a cs'
        (Bool.eq_false_iff.2 ha)] at hc
      rcases List.mem_cons.1 hc with rfl | h
      · exact Or.inl (List.mem_cons_self _ _)
      · rcases ih false c h with h2 | h2
        · exact Or.inl (List.mem_cons_of_mem _ h2)
        · exact Or.inr h2

theorem mem_collapseWs (s : List Char) (c : Char) (hc : c ∈ collapseWs s) :
    c ∈ s ∨ c = ' ' :=
  mem_collapseWsAux s false c hc


/-- No two adjacent whitespace characters (the invariant established by
`collapseWs`). -/
def noTwoSpaces (a b : Char) : Prop :=
  ¬(isPySpace a = true ∧ isPySpace b = true)

theorem chain'_middle {α : Type} (R : α → α → Prop) (u v w : List α)
    (h : List.Chain' R (u ++ v ++ w)) : List.Chain' R v :=
  (List.chain'_append.1 (List.chain'_append.1 h).1).2.1

theorem collapseWsAux_space_is_space :
    ∀ (cs : List Char) (flag : Bool) (c : Char),
      c ∈ collapseWsAux flag cs → isPySpace c = true → c = ' ' := by
  intro cs
  induction cs with
  | nil => intro flag c hc hsp; cases hc
  | cons a cs' ih =>
    intro flag c hc hsp
    by_cases ha : isPySpace a = true
    · cases flag with
      | true =>
        rw [collapseWsAux_cons_space_true a cs' ha] at hc
        exact ih true c hc hsp
      | false =>
        rw [collapseWsAux_cons_space_false a cs' ha] at hc
        rcases List.mem_cons.1 hc with rfl | h
        · rfl
        · exact ih true c h hsp
    · rw [collapseWsAux_cons_nonspace flag a cs'
        (Bool.eq_false_iff.2 ha)] at hc
      rcases List.mem_cons.1 hc with rfl | h
      · exact absurd hsp ha
      · exact ih false c h hsp

theorem collapseWsAux_true_head :
    ∀ (cs : List Char) (b : Char),
      b ∈ (collapseWsAux true cs).head? → isPySpace b = false := by
  intro cs
  induction cs with
  | nil => intro b hb; cases hb
  | cons a cs' ih =>
    intro b hb
    by_cases ha : isPySpace a = true
    · rw [collapseWsAux_cons_space_true a cs' ha] at hb
      exact ih b hb
    · rw [collapseWsAux_cons_nonspace true a cs'
        (Bool.eq_false_iff.2 ha)] at hb
      cases hb
      exact Bool.eq_false_iff.2 ha

theorem collapseWsAux_chain :
    ∀ (cs : List Char) (flag : Bool),
      List.Chain' noTwoSpaces (collapseWsAux flag cs) := by
  intro cs
  induction cs with
  | nil => intro flag; exact List.chain'_nil
  | cons a cs' ih =>
    intro flag
    by_cases ha : isPySpace a = true
    · cases flag with
      | true =>
        rw [collapseWsAux_cons_space_true a cs' ha]
        exact ih true
      | false =>
        rw [collapseWsAux_cons_space_false a cs' ha]
        refine List.chain'_cons'.2 ⟨?_, ih true⟩
        intro b hb
        intro hcon
        rw [collapseWsAux_true_head cs' b hb] at hcon
        cases hcon.2
    · rw [collapseWsAux_cons_nonspace flag a cs' (Bool.eq_false_iff.2 ha)]
      refine List.chain'_cons'.2 ⟨?_, ih false⟩
      intro b hb
      intro hcon
      exact ha hcon.1

theorem collapseWsAux_fix :
    ∀ (cs : List Char),
      (∀ c ∈ cs, isPySpace c = true → c = ' ') →
      List.Chain' noTwoSpaces cs →
      ∀ flag : Bool,
        (flag = true → ∀ b ∈ cs.head?, isPySpace b = false) →
        collapseWsAux flag cs = cs := by
  intro cs
  induction cs with
  | nil => intro h1 h2 flag h3; rfl
  | cons a cs' ih =>
    intro h1 h2 flag h3
    by_cases ha : isPySpace a = true
    · cases flag with
      | true =>
        have := h3 rfl a rfl
        rw [this] at ha
        cases ha
      | false =>
        rw [collapseWsAux_cons_space_false a cs' ha]
        have haeq : a = ' ' := h1 a (List.mem_cons_self _ _) ha
        have hhead : ∀ b ∈ cs'.head?, isPySpace b = false := by
          intro b hb
          have hr := (List.chain'_cons'.1 h2).1 b hb
          by_cases hsb : isPySpace b = true
          · exact absurd ⟨ha, hsb⟩ hr
          · exact Bool.eq_false_iff.2 hsb
        rw [ih (fun c hc => h1 c (List.mem_cons_of_mem _ hc))
          (List.chain'_cons'.1 h2).2 true (fun _ => hhead), haeq]
    · rw [collapseWsAux_cons_nonspace flag a cs' (Bool.eq_false_iff.2 ha)]
      rw [ih (fun c hc => h1 c (List.mem_cons_of_mem _ hc))
        (List.chain'_cons'.1 h2).2 false (fun h => nomatch h)]

theorem pySpace_not_word (c : Char) (h : isPySpace c = true) :
    isWordChar c = false := by
  simp only [isPySpace, Bool.or_eq_true, decide_eq_true_eq] at h
  rcases h with ((((h | h) | h) | h) | h) | h <;> subst h <;> decide

theorem runsOfAux_allword_append :
    ∀ (w run s : List Char), (∀ c ∈ w, isWordChar c = true) →
      runsOfAux run (w ++ s) = runsOfAux (w.reverse ++ run) s := by
  intro w
  induction w with
  | nil => intro run s hw; rfl
  | cons a w' ih =>
    intro run s hw
    rw [List.cons_append,
      runsOfAux_cons_word run a _ (hw a (List.mem_cons_self _ _)),
      ih (a :: run) s (fun c hc => hw c (List.mem_cons_of_mem _ hc)),
      List.reverse_cons, List.append_assoc, List.singleton_append]

theorem runsOf_allword (w : List Char) (hne : w ≠ [])
    (hw : ∀ c ∈ w, isWordChar c = true) : runsOf w = [w] := by
  have h1 : runsOf w = runsOfAux (w.reverse ++ []) [] := by
    have := runsOfAux_allword_append w [] [] hw
    rw [List.append_nil] at this
    exact this
  rw [h1, List.append_nil]
  have hrne : w.reverse ≠ [] := by
    intro hh
    exact hne (by simpa using congrArg List.reverse hh)
  simp only [runsOfAux, if_neg hrne, List.reverse_reverse]

theorem runsOfAux_append_nonword :
    ∀ (s run : List Char) (c : Char), isWordChar c = false →
      runsOfAux run (s ++ [c]) = runsOfAux run s := by
  intro s
  induction s with
  | nil =>
    intro run c hc
    rw [List.nil_append, runsOfAux_cons_nonword run c [] hc]
    simp [runsOfAux]
  | cons a s' ih =>
    intro run c hc
    by_cases ha : isWordChar a = true
    · rw [List.cons_append, runsOfAux_cons_word run a _ ha,
        runsOfAux_cons_word run a s' ha]
      exact ih (a :: run) c hc
    · rw [List.cons_append,
        runsOfAux_cons_nonword run a _ (Bool.eq_false_iff.2 ha),
        runsOfAux_cons_nonword run a s' (Bool.eq_false_iff.2 ha),
        ih [] c hc]

theorem runsOf_append_nonword (s : List Char) (c : Char)
    (hc : isWordChar c = false) : runsOf (s ++ [c]) = runsOf s :=
  runsOfAux_append_nonword s [] c hc

theorem runsOf_dropWhile_space (s : List Char) :
    runsOf (s.dropWhile isPySpace) = runsOf s := by
  induction s with
  | nil => rfl
  | cons a s' ih =>
    by_cases ha : isPySpace a = true
    · rw [List.dropWhile_cons_of_pos ha, ih]
      unfold runsOf
      rw [runsOfAux_cons_nonword [] a s' (pySpace_not_word a ha)]
      simp
    · rw [List.dropWhile_cons_of_neg (by simp [ha])]

theorem runsOf_stripTail (w : List Char) :
    runsOf ((w.reverse.dropWhile isPySpace).reverse) = runsOf w := by
  induction w using List.reverseRecOn with
  | nil => rfl
  | append_singleton s c ih =>
    by_cases hc : isPySpace c = true
    · rw [List.reverse_append]
      simp only [List.reverse_cons, List.reverse_nil, List.nil_append,
        List.singleton_append]
      rw [List.dropWhile_cons_of_pos hc, ih,
        runsOf_append_nonword s c (pySpace_not_word c hc)]
    · rw [List.reverse_append]
      simp only [List.reverse_cons, List.reverse_nil, List.nil_append,
        List.singleton_append]
      rw [List.dropWhile_cons_of_neg (by simp [hc])]
      simp

theorem runsOf_pyStrip (s : List Char) : runsOf (pyStrip s) = runsOf s := by
  have h1 : pyStrip s = ((s.dropWhile isPySpace).reverse.dropWhile
      isPySpace).reverse := rfl
  rw [h1, runsOf_stripTail, runsOf_dropWhile_space]

theorem runsOf_collapseWsAux :
    ∀ (cs run : List Char) (flag : Bool), (flag = true → run = []) →
      runsOfAux run (collapseWsAux flag cs) = runsOfAux run cs := by
  intro cs
  induction cs with
  | nil => intro run flag hrf; rfl
  | cons a cs' ih =>
    intro run flag hrf
    by_cases ha : isPySpace a = true
    · have haw : isWordChar a = false := pySpace_not_word a ha
      cases flag with
      | true =>
        rw [hrf rfl]
        rw [collapseWsAux_cons_space_true a cs' ha,
          runsOfAux_cons_nonword [] a cs' haw]
        have := ih [] true (fun _ => rfl)
        rw [this]
        simp
      | false =>
        rw [collapseWsAux_cons_space_false a cs' ha,
          runsOfAux_cons_nonword run ' ' _ (by decide),
          runsOfAux_cons_nonword run a cs' haw,
          ih [] true (fun _ => rfl)]
    · rw [collapseWsAux_cons_nonspace flag a cs' (Bool.eq_false_iff.2 ha)]
      by_cases haw : isWordChar a = true
      · rw [runsOfAux_cons_word run a _ haw, runsOfAux_cons_word run a cs' haw]
        exact ih (a :: run) false (fun h => nomatch h)
      · rw [runsOfAux_cons_nonword run a _ (Bool.eq_false_iff.2 haw),
          runsOfAux_cons_nonword run a cs' (Bool.eq_false_iff.2 haw),
          ih [] false (fun h => nomatch h)]

theorem runsOf_collapseWs (s : List Char) :
    runsOf (collapseWs s) = runsOf s :=
  runsOf_collapseWsAux s [] false (fun h => nomatch h)


theorem runsOf_wordSubAux (T : List (List Char × List Char))
    (hT : ∀ kv ∈ T, kv.2 ≠ [] ∧ ∀ c ∈ kv.2, isWordChar c = true) :
    ∀ (cs run : List Char), (∀ c ∈ run, isWordChar c = true) →
      runsOf (wordSubAux T run cs) = (runsOfAux run cs).map (applyTable T) := by
  intro cs
  induction cs with
  | nil =>
    intro run hrun
    by_cases hr : run = []
    · subst hr
      rfl
    · have he : wordSubAux T run [] = applyTable T run.reverse := by
        simp only [wordSubAux, flushRun, if_neg hr]
      have hne : applyTable T run.reverse ≠ []
          ∧ ∀ c ∈ applyTable T run.reverse, isWordChar c = true := by
        rcases applyTable_cases T run.reverse with h | ⟨kv, hkv, h⟩
        · rw [h]
          refine ⟨fun hh => hr (by simpa using congrArg List.reverse hh), ?_⟩
          intro c hc
          exact hrun c (List.mem_reverse.1 hc)
        · rw [h]
          exact hT kv hkv
      rw [he, runsOf_allword _ hne.1 hne.2]
      simp only [runsOfAux, if_neg hr, List.map_cons, List.map_nil]
  | cons a cs' ih =>
    intro run hrun
    by_cases ha : isWordChar a = true
    · rw [wordSubAux_cons_word T run a cs' ha,
        runsOfAux_cons_word run a cs' ha]
      refine ih (a :: run) ?_
      intro c hc
      rcases List.mem_cons.1 hc with rfl | hc
      · exact ha
      · exact hrun c hc
    · have ha' : isWordChar a = false := Bool.eq_false_iff.2 ha
      rw [wordSubAux_cons_nonword T run a cs' ha',
        runsOfAux_cons_nonword run a cs' ha', List.map_append]
      by_cases hr : run = []
      · subst hr
        rw [show flushRun T [] = [] from rfl, List.nil_append, if_pos rfl,
          List.map_nil, List.nil_append]
        unfold runsOf
        rw [runsOfAux_cons_nonword [] a _ ha', if_pos rfl, List.nil_append]
        exact ih [] (fun c hc => nomatch hc)
      · have he : flushRun T run = applyTable T run.reverse := by
          simp only [flushRun, if_neg hr]
        have hne : applyTable T run.reverse ≠ []
            ∧ ∀ c ∈ applyTable T run.reverse, isWordChar c = true := by
          rcases applyTable_cases T run.reverse with h | ⟨kv, hkv, h⟩
          · rw [h]
            refine ⟨fun hh => hr (by simpa using congrArg List.reverse hh), ?_⟩
            intro c hc
            exact hrun c (List.mem_reverse.1 hc)
          · rw [h]
            exact hT kv hkv
        rw [he, if_neg hr]
        have h4 : runsOf (applyTable T run.reverse
              ++ a :: wordSubAux T [] cs')
            = runsOfAux ((applyTable T run.reverse).reverse)
                (a :: wordSubAux T [] cs') := by
          unfold runsOf
          rw [runsOfAux_allword_append _ [] _ hne.2, List.append_nil]
        rw [h4, runsOfAux_cons_nonword _ a _ ha']
        have hwr : (applyTable T run.reverse).reverse ≠ [] := by
          intro hh
          exact hne.1 (by simpa using congrArg List.reverse hh)
        rw [if_neg hwr, List.reverse_reverse]
        have h5 := ih [] (fun c hc => nomatch hc)
        unfold runsOf at h5
        rw [h5]
        simp

theorem runsOf_wordSub (T : List (List Char × List Char))
    (hT : ∀ kv ∈ T, kv.2 ≠ [] ∧ ∀ c ∈ kv.2, isWordChar c = true)
    (s : List Char) :
    runsOf (wordSub T s) = (runsOf s).map (applyTable T) :=
  runsOf_wordSubAux T hT s [] (fun c hc => nomatch hc)

theorem wordSubAux_fix (T : List (List Char × List Char)) :
    ∀ (cs run : List Char),
      (∀ r ∈ runsOfAux run cs, applyTable T r = r) →
      wordSubAux T run cs = run.reverse ++ cs := by
  intro cs
  induction cs with
  | nil =>
    intro run h
    by_cases hr : run = []
    · subst hr; rfl
    · have he : wordSubAux T run [] = applyTable T run.reverse := by
        simp only [wordSubAux, flushRun, if_neg hr]
      rw [he, h run.reverse (by
          simp only [runsOfAux, if_neg hr]
          exact List.mem_cons_self _ _),
        List.append_nil]
  | cons a cs' ih =>
    intro run h
    by_cases ha : isWordChar a = true
    · rw [wordSubAux_cons_word T run a cs' ha,
        ih (a :: run) (by rw [← runsOfAux_cons_word run a cs' ha]; exact h),
        List.reverse_cons, List.append_assoc, List.singleton_append]
    · have ha' : isWordChar a = false := Bool.eq_false_iff.2 ha
      have hmem : ∀ r ∈ runsOfAux [] cs', applyTable T r = r := by
        intro r hr2
        refine h r ?_
        rw [runsOfAux_cons_nonword run a cs' ha']
        exact List.mem_append.2 (Or.inr hr2)
      by_cases hr : run = []
      · subst hr
        rw [wordSubAux_cons_nonword T [] a cs' ha',
          show flushRun T [] = [] from rfl, List.nil_append,
          ih [] hmem]
        rfl
      · have hfix : applyTable T run.reverse = run.reverse := by
          refine h run.reverse ?_
          rw [runsOfAux_cons_nonword run a cs' ha']
          refine List.mem_append.2 (Or.inl ?_)
          rw [if_neg hr]
          exact List.mem_cons_self _ _
        rw [wordSubAux_cons_nonword T run a cs' ha',
          show flushRun T run = applyTable T run.reverse by
            simp only [flushRun, if_neg hr],
          hfix, ih [] hmem]
        simp

theorem wordSub_fix (T : List (List Char × List Char)) (s : List Char)
    (h : ∀ r ∈ runsOf s, applyTable T r = r) : wordSub T s = s := by
  have h2 := wordSubAux_fix T s [] h
  simpa using h2

theorem streetTable_values :
    ∀ kv ∈ streetTable, kv.2 ≠ [] ∧ ∀ c ∈ kv.2, isWordChar c = true := by
  decide

theorem unitTable_values :
    ∀ kv ∈ unitTable, kv.2 ≠ [] ∧ ∀ c ∈ kv.2, isWordChar c = true := by
  decide

theorem streetTable_values_good : ∀ kv ∈ streetTable, goodWord kv.2 := by
  decide

theorem unitTable_values_good : ∀ kv ∈ unitTable, goodWord kv.2 := by
  decide

theorem streetTable_values_chars :
    ∀ kv ∈ streetTable, ∀ c ∈ kv.2,
      pyLower c = c ∧ isAddrPunct c = false := by
  decide

theorem unitTable_values_chars :
    ∀ kv ∈ unitTable, ∀ c ∈ kv.2,
      pyLower c = c ∧ isAddrPunct c = false := by
  decide

/-- One pass through both tables lands on a word that both tables leave
unchanged: either the word was already untouched by both, or it became a
table value, and every table value is fixed by both tables. -/
theorem word_tables_good (w : List Char) :
    goodWord (applyTable unitTable (applyTable streetTable w)) := by
  rcases applyTable_cases streetTable w with hS | ⟨kv, hkv, hS⟩
  · rcases applyTable_cases unitTable (applyTable streetTable w) with
      hU | ⟨ku, hku, hU⟩
    · rw [hS] at hU ⊢
      rw [hU]
      exact ⟨hS, hU⟩
    · rw [hU]
      exact unitTable_values_good ku hku
  · rw [hS]
    have h2 := (streetTable_values_good kv hkv).2
    rw [h2]
    exact streetTable_values_good kv hkv

theorem punctToSpace_fix (d : Char) (hd : isAddrPunct d = false) :
    punctToSpace d = d := by
  simp [punctToSpace, hd]

theorem punctToSpace_not_punct (d : Char) :
    isAddrPunct (punctToSpace d) = false := by
  by_cases h : isAddrPunct d = true
  · simp only [punctToSpace, if_pos h]
    decide
  · simp only [punctToSpace, if_neg h]
    exact Bool.eq_false_iff.2 h

theorem punctToSpace_lower_stable (d : Char) (hd : pyLower d = d) :
    pyLower (punctToSpace d) = punctToSpace d := by
  by_cases h : isAddrPunct d = true
  · simp only [punctToSpace, if_pos h]
    decide
  · simp only [punctToSpace, if_neg h]
    exact hd

/-- The second normalization pass fixes any string of the shape the first
pass produces: strip-of-collapse of a lower-stable, punctuation-free
string whose word runs are fixed by both substitution tables. -/
theorem normalizeAddressL_of_shape (z : List Char)
    (hz : ∀ c ∈ z, pyLower c = c ∧ isAddrPunct c = false)
    (hruns : ∀ r ∈ runsOf z, goodWord r) :
    normalizeAddressL (pyStrip (collapseWs z)) = pyStrip (collapseWs z) := by
  set y := pyStrip (collapseWs z) with hyy
  have hy1 : ∀ c ∈ y, pyLower c = c ∧ isAddrPunct c = false := by
    intro c hc
    rw [hyy] at hc
    rcases mem_collapseWs z c (mem_pyStrip hc) with h | h
    · exact hz c h
    · subst h
      exact ⟨by decide, by decide⟩
  have hps : pyStrip y = y := by
    rw [hyy]
    exact pyStrip_idem _
  have hruns_y : ∀ r ∈ runsOf y, goodWord r := by
    intro r hr
    rw [hyy, runsOf_pyStrip, runsOf_collapseWs] at hr
    exact hruns r hr
  have hspace_y : ∀ c ∈ y, isPySpace c = true → c = ' ' := by
    intro c hc hsp
    rw [hyy] at hc
    exact collapseWsAux_space_is_space z false c (mem_pyStrip hc) hsp
  have hchain_y : List.Chain' noTwoSpaces y := by
    obtain ⟨u, w, hsw⟩ := pyStrip_decomp (collapseWs z)
    have hch : List.Chain' noTwoSpaces (collapseWs z) := collapseWsAux_chain z false
    rw [← hsw] at hch
    rw [hyy]
    exact chain'_middle _ u _ w hch
  have hcw : collapseWs y = y :=
    collapseWsAux_fix y hspace_y hchain_y false (fun h => nomatch h)
  by_cases hy0 : y = []
  · rw [hy0]
    rfl
  · rw [normalizeAddressL, if_neg hy0,
      map_fix pyLower y (fun c hc => (hy1 c hc).1), hps,
      map_fix punctToSpace y (fun c hc => punctToSpace_fix c (hy1 c hc).2),
      wordSub_fix streetTable y (fun r hr => (hruns_y r hr).1),
      wordSub_fix unitTable y (fun r hr => (hruns_y r hr).2),
      hcw]
    exact hps

theorem normalizeAddressL_idem (x : List Char) :
    normalizeAddressL (normalizeAddressL x) = normalizeAddressL x := by
  by_cases hx : x = []
  · rw [hx]
    rfl
  · have hxe : normalizeAddressL x
        = pyStrip (collapseWs (wordSub unitTable (wordSub streetTable
            ((pyStrip (x.map pyLower)).map punctToSpace)))) := by
      rw [normalizeAddressL, if_neg hx]
    rw [hxe]
    refine normalizeAddressL_of_shape _ ?_ ?_
    · intro c hc
      rcases mem_wordSub _ _ _ hc with h | ⟨kv, hkv, h⟩
      · rcases mem_wordSub _ _ _ h with h2 | ⟨kv, hkv, h2⟩
        · obtain ⟨d, hd, rfl⟩ := List.mem_map.1 h2
          obtain ⟨e, he, rfl⟩ := List.mem_map.1 (mem_pyStrip hd)
          exact ⟨punctToSpace_lower_stable _ (pyLower_idem e),
            punctToSpace_not_punct _⟩
        · exact streetTable_values_chars kv hkv c h2
      · exact unitTable_values_chars kv hkv c h
    · intro r hr
      rw [runsOf_wordSub unitTable unitTable_values _] at hr
      obtain ⟨r1, hr1, rfl⟩ := List.mem_map.1 hr
      rw [runsOf_wordSub streetTable streetTable_values _] at hr1
      obtain ⟨r0, hr0, rfl⟩ := List.mem_map.1 hr1
      exact word_tables_good r0

/-- C6: **confirmed**.  Address normalization is idempotent —
`normalize(normalize(x)) = normalize(x)` for every input string — and
empty input normalizes to the empty string. -/
theorem c6_normalize_idempotent (s : String) :
    normalizeAddress (normalizeAddress s) = normalizeAddress s
      ∧ normalizeAddress "" = "" := by
  constructor
  · have h := normalizeAddressL_idem s.data
    show (⟨normalizeAddressL (normalizeAddressL s.data)⟩ : String)
        = ⟨normalizeAddressL s.data⟩
    rw [h]
  · rfl


end ChspMapper
